import Mathlib

/-!
Verification of the PKI-based 2FA microservice core
(src/src/crypto_utils.py, src/src/app.py, src/src/config.py,
src/scripts/generate_proof.py).

The Python code is shallowly embedded: bytes are `List Nat` with each
element below 256, Python `str` is Lean `String`, fallible operations
return `Except PyErr`.  Library primitives the repository calls
(`base64`, `bytes.fromhex`, `pyotp`, the `cryptography` RSA layer) are
embedded from their documented semantics; the RSA/OAEP/PSS primitives,
whose number-theoretic internals are irrelevant to every claim, are
abstracted as a structure `RSAScheme` whose fields record exactly the
contract the `cryptography` library documents (payload bounds, error
classes, signature length, decrypt-of-encrypt).
-/

/-- Exception classes raised by the embedded code, one constructor per
distinct Python error surface:
`b64Invalid` is `binascii.Error` from `base64.b64decode`;
`oaepDecrypt` is the `ValueError` raised by RSA-OAEP decryption
(wrong length, padding mismatch, wrong key, corrupt ciphertext);
`oaepTooLarge` is the `ValueError` raised by RSA-OAEP encryption when
the plaintext exceeds the modulus capacity;
`utf8Invalid` is `UnicodeDecodeError`;
`seedLen n` is the `ValueError` for a decrypted seed of length `n` at
crypto_utils.py line 106; `seedChars` the one at line 109;
`hexValue` is the `ValueError` from `bytes.fromhex`;
`b32Invalid` is `binascii.Error` from `base64.b32decode`;
`b64NonAscii` is the plain ValueError ("string argument should
contain only ASCII characters") that `base64.b64decode` raises from
`_bytes_from_decode_data` when its str argument is not pure ASCII;
`negInput` is the `ValueError` raised by pyotp `generate_otp` when the
counter is negative. -/
inductive PyErr where
  | b64Invalid
  | oaepDecrypt
  | oaepTooLarge
  | utf8Invalid
  | seedLen (n : Nat)
  | seedChars
  | hexValue
  | b32Invalid
  | b64NonAscii
  | negInput
deriving DecidableEq

instance {ε α : Type} [DecidableEq ε] [DecidableEq α] : DecidableEq (Except ε α) :=
  fun x y =>
    match x, y with
    | .ok a, .ok b => decidable_of_iff (a = b) ⟨congrArg _, Except.ok.inj⟩
    | .error a, .error b => decidable_of_iff (a = b) ⟨congrArg _, Except.error.inj⟩
    | .ok _, .error _ => isFalse (fun h => Except.noConfusion h)
    | .error _, .ok _ => isFalse (fun h => Except.noConfusion h)

/-- A list of Python byte values. -/
def isBytes (l : List Nat) : Prop := ∀ b ∈ l, b < 256

instance (l : List Nat) : Decidable (isBytes l) := by
  unfold isBytes; infer_instance

/-- Python `str.lower` on one character.  For ASCII this maps the
letters A-Z (codes 65-90) to a-z (codes 97-122) and leaves everything
else unchanged, which is exactly what this model does.  Python also
lowercases non-ASCII letters, but no non-ASCII character has a
lowercase form that is an ASCII hexadecimal digit, so restricting the
mapping to ASCII does not change the outcome of any hex-membership
check performed by the embedded code. -/
def pyLower (c : Char) : Char :=
  if 65 ≤ c.toNat ∧ c.toNat ≤ 90 then Char.ofNat (c.toNat + 32) else c

/-- Python `str.lower` on a whole string (ASCII model, see `pyLower`). -/
def pyLowerStr (s : String) : String := ⟨s.data.map pyLower⟩

/-- Value of one hexadecimal digit as accepted by Python
`bytes.fromhex`: ASCII 0-9, a-f, A-F. -/
def hexDigitVal (c : Char) : Option Nat :=
  if 48 ≤ c.toNat ∧ c.toNat ≤ 57 then some (c.toNat - 48)
  else if 97 ≤ c.toNat ∧ c.toNat ≤ 102 then some (c.toNat - 87)
  else if 65 ≤ c.toNat ∧ c.toNat ≤ 70 then some (c.toNat - 55)
  else none

/-- Core of Python `bytes.fromhex`: consume two hex digits per output
byte, fail on an odd number of digits or a non-hex character.
(`bytes.fromhex` also skips ASCII spaces between bytes; the seeds this
system feeds it are pure hex strings, so the skipping is not modelled.) -/
def hexDecodeAux : List Char → Option (List Nat)
  | [] => some []
  | [_] => none
  | c1 :: c2 :: rest =>
    match hexDigitVal c1, hexDigitVal c2, hexDecodeAux rest with
    | some h, some l, some bs => some ((h * 16 + l) :: bs)
    | _, _, _ => none

/-- Python `bytes.fromhex` on a string. -/
def hexDecode (s : String) : Option (List Nat) := hexDecodeAux s.data

/-- Character of the standard base64 alphabet for a 6-bit value. -/
def b64AlphaChar (v : Nat) : Char :=
  Char.ofNat
    (if v < 26 then 65 + v
     else if v < 52 then 71 + v
     else if v < 62 then v - 4
     else if v = 62 then 43
     else 47)

/-- RFC 4648 base64 encoding of a byte list, three input bytes per
four output characters, '=' padding on the final partial group.  This
is the semantics of Python `base64.b64encode`. -/
def b64encodeChunks : List Nat → List Char
  | [] => []
  | [a] =>
    [b64AlphaChar (a / 4), b64AlphaChar (a % 4 * 16), '=', '=']
  | [a, b] =>
    [b64AlphaChar (a / 4), b64AlphaChar (a % 4 * 16 + b / 16),
     b64AlphaChar (b % 16 * 4), '=']
  | a :: b :: c :: rest =>
    b64AlphaChar (a / 4) :: b64AlphaChar (a % 4 * 16 + b / 16) ::
    b64AlphaChar (b % 16 * 4 + c / 64) :: b64AlphaChar (c % 64) ::
    b64encodeChunks rest

/-- Python `base64.b64encode`, decoded to text as `generate_proof.py`
line 66 does. -/
def b64encode (bs : List Nat) : String := ⟨b64encodeChunks bs⟩

/-- Reverse base64 alphabet lookup (the `table_a2b_base64` of CPython
binascii): A-Z are 0-25, a-z are 26-51, 0-9 are 52-61, + is 62,
/ is 63; every other character is invalid. -/
def b64CharVal (c : Char) : Option Nat :=
  if 65 ≤ c.toNat ∧ c.toNat ≤ 90 then some (c.toNat - 65)
  else if 97 ≤ c.toNat ∧ c.toNat ≤ 122 then some (c.toNat - 71)
  else if 48 ≤ c.toNat ∧ c.toNat ≤ 57 then some (c.toNat + 4)
  else if c.toNat = 43 then some 62
  else if c.toNat = 47 then some 63
  else none

/-- CPython `binascii.a2b_base64` in its default lenient mode, the
function `base64.b64decode(s)` (validate=False) calls: characters
outside the alphabet are silently discarded; a '=' seen with at least
two data characters in the current group terminates decoding once the
group is complete; at end of input a partially filled group is a
`binascii.Error`.  State: remaining input, position in the current
4-character group (`quadPos`), bits carried from the previous
character (`leftchar`), count of '=' seen for the current group
(`pads`), bytes produced so far (`out`). -/
def a2bLoop : List Char → Nat → Nat → Nat → List Nat → Except PyErr (List Nat)
  | [], quadPos, _, _, out =>
    if quadPos = 0 then .ok out else .error .b64Invalid
  | c :: rest, quadPos, leftchar, pads, out =>
    if c = '=' then
      if quadPos < 2 then a2bLoop rest quadPos leftchar pads out
      else if 4 ≤ quadPos + pads + 1 then .ok out
      else a2bLoop rest quadPos leftchar (pads + 1) out
    else
      match b64CharVal c with
      | none => a2bLoop rest quadPos leftchar pads out
      | some v =>
        match quadPos with
        | 0 => a2bLoop rest 1 v 0 out
        | 1 => a2bLoop rest 2 (v % 16) 0 (out ++ [leftchar * 4 + v / 16])
        | 2 => a2bLoop rest 3 (v % 4) 0 (out ++ [leftchar * 16 + v / 4])
        | _ => a2bLoop rest 0 0 0 (out ++ [leftchar * 64 + v])

/-- Python `base64.b64decode` with default arguments, as called at
crypto_utils.py line 89.  On a str argument `b64decode` first runs
`_bytes_from_decode_data`, which encodes the string as ASCII and
raises a plain ValueError when any character is outside ASCII; only an
all-ASCII string reaches the lenient binascii decoder. -/
def pythonB64Decode (s : String) : Except PyErr (List Nat) :=
  if s.data.all (fun c => c.toNat < 128) then a2bLoop s.data 0 0 0 []
  else .error .b64NonAscii

example : pythonB64Decode "aGk=" = .ok [104, 105] := by decide
example : pythonB64Decode "!!!!" = .ok [] := by decide
example : pythonB64Decode "abc" = .error .b64Invalid := by decide
example : pythonB64Decode (b64encode [0, 255, 17]) = .ok [0, 255, 17] := by decide
example : pythonB64Decode (b64encode [7]) = .ok [7] := by decide
example : pythonB64Decode (b64encode [7, 9]) = .ok [7, 9] := by decide
example : pythonB64Decode "ab==cd" = .ok [105] := by decide

/-- Python `str.upper` on one character (ASCII model, mirror image of
`pyLower`; the same non-ASCII caveat applies and is likewise
irrelevant: the base32 strings this system uppercases are already
ASCII). -/
def pyUpper (c : Char) : Char :=
  if 97 ≤ c.toNat ∧ c.toNat ≤ 122 then Char.ofNat (c.toNat - 32) else c

/-- Character of the RFC 4648 base32 alphabet for a 5-bit value:
A-Z for 0-25, the digits 2-7 for 26-31. -/
def b32Char (v : Nat) : Char :=
  Char.ofNat (if v < 26 then 65 + v else 24 + v)

/-- Reverse base32 alphabet lookup (the `_b32rev` dictionary of
CPython base64): A-Z are 0-25, 2-7 are 26-31, everything else is a
non-base32 digit. -/
def b32CharVal (c : Char) : Option Nat :=
  if 65 ≤ c.toNat ∧ c.toNat ≤ 90 then some (c.toNat - 65)
  else if 50 ≤ c.toNat ∧ c.toNat ≤ 55 then some (c.toNat - 24)
  else none

/-- RFC 4648 base32 encoding of a byte list, five input bytes per
eight output characters, '=' padding on the final partial group.
This is the semantics of Python `base64.b32encode`. -/
def b32encodeChunks : List Nat → List Char
  | [] => []
  | [a] =>
    [b32Char (a / 8), b32Char (a % 8 * 4)] ++ List.replicate 6 '='
  | [a, b] =>
    [b32Char (a / 8), b32Char (a % 8 * 4 + b / 64), b32Char (b / 2 % 32),
     b32Char (b % 2 * 16)] ++ List.replicate 4 '='
  | [a, b, c] =>
    [b32Char (a / 8), b32Char (a % 8 * 4 + b / 64), b32Char (b / 2 % 32),
     b32Char (b % 2 * 16 + c / 16), b32Char (c % 16 * 2)] ++ List.replicate 3 '='
  | [a, b, c, d] =>
    [b32Char (a / 8), b32Char (a % 8 * 4 + b / 64), b32Char (b / 2 % 32),
     b32Char (b % 2 * 16 + c / 16), b32Char (c % 16 * 2 + d / 128),
     b32Char (d / 4 % 32), b32Char (d % 4 * 8)] ++ List.replicate 1 '='
  | a :: b :: c :: d :: e :: rest =>
    b32Char (a / 8) :: b32Char (a % 8 * 4 + b / 64) :: b32Char (b / 2 % 32) ::
    b32Char (b % 2 * 16 + c / 16) :: b32Char (c % 16 * 2 + d / 128) ::
    b32Char (d / 4 % 32) :: b32Char (d % 4 * 8 + e / 32) :: b32Char (e % 32) ::
    b32encodeChunks rest

/-- Python `base64.b32encode`, decoded to text as `hex_to_base32`
(crypto_utils.py line 128) does. -/
def b32encode (bs : List Nat) : String := ⟨b32encodeChunks bs⟩

/-- Python `int.to_bytes(5, "big")`, as used on each base32 quantum
accumulator.  (Python raises OverflowError above 2 ^ 40; every
accumulator in `b32decodePy` comes from at most eight 5-bit digits,
optionally shifted to 40 bits, so that branch is unreachable.) -/
def toBytes5 (acc : Nat) : List Nat :=
  [acc / 2 ^ 32 % 256, acc / 2 ^ 24 % 256, acc / 2 ^ 16 % 256,
   acc / 2 ^ 8 % 256, acc % 256]

/-- Inner loop of a CPython `_b32decode` quantum:
`for c in quanta: acc = (acc << 5) + b32rev[c]`, where a character
missing from the table is a `binascii.Error`. -/
def b32AccOf : List Char → Nat → Except PyErr Nat
  | [], acc => .ok acc
  | c :: rest, acc =>
    match b32CharVal c with
    | none => .error .b32Invalid
    | some v => b32AccOf rest (acc * 32 + v)

/-- The quanta loop of CPython `_b32decode`: the stripped input is cut
into groups of eight characters (the final group, and only it, may be
shorter), each group is accumulated and emitted as five big-endian
bytes.  Returns the decoded bytes together with the accumulator of the
final group, which the caller needs for the padding fix-up. -/
def b32Groups : List Char → Except PyErr (List Nat × Nat)
  | [] => .ok ([], 0)
  | [c1] => do
    let acc ← b32AccOf [c1] 0
    .ok (toBytes5 acc, acc)
  | [c1, c2] => do
    let acc ← b32AccOf [c1, c2] 0
    .ok (toBytes5 acc, acc)
  | [c1, c2, c3] => do
    let acc ← b32AccOf [c1, c2, c3] 0
    .ok (toBytes5 acc, acc)
  | [c1, c2, c3, c4] => do
    let acc ← b32AccOf [c1, c2, c3, c4] 0
    .ok (toBytes5 acc, acc)
  | [c1, c2, c3, c4, c5] => do
    let acc ← b32AccOf [c1, c2, c3, c4, c5] 0
    .ok (toBytes5 acc, acc)
  | [c1, c2, c3, c4, c5, c6] => do
    let acc ← b32AccOf [c1, c2, c3, c4, c5, c6] 0
    .ok (toBytes5 acc, acc)
  | [c1, c2, c3, c4, c5, c6, c7] => do
    let acc ← b32AccOf [c1, c2, c3, c4, c5, c6, c7] 0
    .ok (toBytes5 acc, acc)
  | c1 :: c2 :: c3 :: c4 :: c5 :: c6 :: c7 :: c8 :: rest => do
    let acc ← b32AccOf [c1, c2, c3, c4, c5, c6, c7, c8] 0
    match rest with
    | [] => .ok (toBytes5 acc, acc)
    | _ :: _ => do
      let (decoded, lastAcc) ← b32Groups rest
      .ok (toBytes5 acc ++ decoded, lastAcc)

/-- Python `str.rstrip("=")` on a character list. -/
def rstripPad (l : List Char) : List Char :=
  (l.reverse.dropWhile (fun c => c = '=')).reverse

/-- Python `base64.b32decode(s, casefold=True)`, following CPython
`base64._b32decode` line by line: reject a length that is not a
multiple of eight, uppercase, strip trailing '=' and remember how many
there were, decode the quanta, reject an invalid padding amount, and
rebuild the final partial quantum from the last accumulator. -/
def b32decodePy (s : String) : Except PyErr (List Nat) :=
  if s.length % 8 ≠ 0 then .error .b32Invalid
  else
    let up := s.data.map pyUpper
    let stripped := rstripPad up
    let padchars := up.length - stripped.length
    match b32Groups stripped with
    | .error e => .error e
    | .ok (decoded, acc) =>
      if ¬(padchars = 0 ∨ padchars = 1 ∨ padchars = 3 ∨ padchars = 4 ∨ padchars = 6) then
        .error .b32Invalid
      else if padchars ≠ 0 ∧ decoded ≠ [] then
        .ok (decoded.take (decoded.length - 5) ++
             (toBytes5 (acc * 2 ^ (5 * padchars))).take ((43 - 5 * padchars) / 8))
      else .ok decoded

example : b32decodePy (b32encode [0, 1, 2, 3, 4]) = .ok [0, 1, 2, 3, 4] := by decide
example : b32decodePy (b32encode [255]) = .ok [255] := by decide
example : b32decodePy (b32encode [1, 2]) = .ok [1, 2] := by decide
example : b32decodePy (b32encode [1, 2, 3]) = .ok [1, 2, 3] := by decide
example : b32decodePy (b32encode [9, 8, 7, 6]) = .ok [9, 8, 7, 6] := by decide
example : b32decodePy (b32encode [1, 2, 3, 4, 5, 6, 7]) = .ok [1, 2, 3, 4, 5, 6, 7] := by decide
example : b32encode [255, 255] = "777Q====" := by decide

/-- UTF-8 encoding of one character (RFC 3629).  Python
`str.encode("utf-8")` produces exactly these bytes; `Char` excludes
surrogates, matching Python `str`. -/
def utf8EncodeChar (c : Char) : List Nat :=
  let n := c.toNat
  if n < 128 then [n]
  else if n < 2048 then [192 + n / 64, 128 + n % 64]
  else if n < 65536 then [224 + n / 4096, 128 + n / 64 % 64, 128 + n % 64]
  else [240 + n / 262144, 128 + n / 4096 % 64, 128 + n / 64 % 64, 128 + n % 64]

/-- Python `message.encode("utf-8")`. -/
def utf8Encode (s : String) : List Nat := (s.data.map utf8EncodeChar).flatten

/-- Whether a byte is a UTF-8 continuation byte (10xxxxxx). -/
def utf8Cont (b : Nat) : Bool := 128 ≤ b ∧ b ≤ 191

/-- One character of a strict UTF-8 decode, the semantics of Python
`bytes.decode("utf-8")` at the front of the byte stream: reads the
leading byte, the required continuation bytes (10xxxxxx), and rejects
stray continuation bytes, truncated sequences, overlong encodings
(lead bytes 0xC0/0xC1, 3- and 4-byte values below the range minimum),
surrogate code points and code points above 0x10FFFF.  Returns the
decoded character and the remaining bytes, or `none` where Python
raises UnicodeDecodeError. -/
def utf8First (l : List Nat) : Option (Char × List Nat) :=
  match l with
  | [] => none
  | b :: rest =>
    if b < 128 then some (Char.ofNat b, rest)
    else if 194 ≤ b ∧ b ≤ 223 then
      match rest with
      | b2 :: rest2 =>
        if utf8Cont b2 then some (Char.ofNat ((b - 192) * 64 + (b2 - 128)), rest2)
        else none
      | [] => none
    else if 224 ≤ b ∧ b ≤ 239 then
      match rest with
      | b2 :: b3 :: rest2 =>
        let n := (b - 224) * 4096 + (b2 - 128) * 64 + (b3 - 128)
        if utf8Cont b2 ∧ utf8Cont b3 ∧ 2048 ≤ n ∧ ¬(55296 ≤ n ∧ n ≤ 57343) then
          some (Char.ofNat n, rest2)
        else none
      | _ => none
    else if 240 ≤ b ∧ b ≤ 244 then
      match rest with
      | b2 :: b3 :: b4 :: rest2 =>
        let n := (b - 240) * 262144 + (b2 - 128) * 4096 + (b3 - 128) * 64 + (b4 - 128)
        if utf8Cont b2 ∧ utf8Cont b3 ∧ utf8Cont b4 ∧ 65536 ≤ n ∧ n ≤ 1114111 then
          some (Char.ofNat n, rest2)
        else none
      | _ => none
    else none

/-- Strict UTF-8 decode loop over `utf8First`.  The fuel only bounds
the number of characters produced; since every character consumes at
least one byte, fuel equal to the byte count (as `utf8Decode` passes)
never runs out before the input does. -/
def utf8DecodeAux : Nat → List Nat → Option (List Char)
  | _, [] => some []
  | 0, _ :: _ => none
  | fuel + 1, b :: rest =>
    match utf8First (b :: rest) with
    | none => none
    | some (c, rest2) => (utf8DecodeAux fuel rest2).map (c :: ·)

/-- Python `bytes.decode("utf-8")` producing a string. -/
def utf8Decode (bs : List Nat) : Option String :=
  (utf8DecodeAux bs.length bs).map (⟨·⟩)

example : utf8Decode (utf8Encode "aB9é€") = some "aB9é€" := by decide
example : utf8Decode [200] = none := by decide

/-- Decimal digit character. -/
def decChar (d : Nat) : Char := Char.ofNat (48 + d)

/-- Fuelled most-significant-first decimal digit expansion; the fuel
always dominates the digit count (`n` itself is enough fuel). -/
def pyStrAux : Nat → Nat → List Char
  | 0, _ => []
  | _ + 1, 0 => []
  | fuel + 1, n => pyStrAux fuel (n / 10) ++ [decChar (n % 10)]

/-- Python `str` applied to a non-negative integer. -/
def pyStr (n : Nat) : String := if n = 0 then "0" else ⟨pyStrAux n n⟩

example : pyStr 0 = "0" := by decide
example : pyStr 40735 = "40735" := by decide

/-! Configuration constants from src/src/config.py. -/

/-- config.py line 20. -/
def RSA_KEY_SIZE : Nat := 4096

/-- config.py line 25. -/
def TOTP_PERIOD : Nat := 30

/-- config.py line 26. -/
def TOTP_DIGITS : Nat := 6

/-- config.py line 27. -/
def TOTP_VALID_WINDOW : Nat := 1

/-- An HMAC implementation: key and message bytes to digest bytes.
The repository delegates HMAC-SHA1 to `hashlib` through pyotp; the
claims under verification constrain only how its 20-byte digest is
consumed, so the function is kept as a parameter and theorems assume
`IsHmac20`. -/
def HmacFn := (List Nat) → (List Nat) → List Nat

/-- The digest is 20 bytes (the SHA-1 output length pyotp relies on). -/
def IsHmac20 (hm : HmacFn) : Prop :=
  ∀ key msg, (hm key msg).length = 20 ∧ isBytes (hm key msg)

/-- Little-endian byte expansion with fuel (the
`while i != 0: append(i & 0xFF); i >>= 8` loop of pyotp
`int_to_bytestring`); 64 bytes of fuel cover every integer below
2 ^ 512, far beyond any TOTP counter. -/
def leBytesF : Nat → Nat → List Nat
  | 0, _ => []
  | fuel + 1, i => if i = 0 then [] else i % 256 :: leBytesF fuel (i / 256)

/-- pyotp `OTP.int_to_bytestring` with its default padding of 8:
minimal big-endian bytes of the counter, left-padded with zero bytes
to length 8. -/
def int_to_bytestring (i : Nat) : List Nat :=
  let r := (leBytesF 64 i).reverse
  List.replicate (8 - r.length) 0 ++ r

example : int_to_bytestring 123 = [0, 0, 0, 0, 0, 0, 0, 123] := by decide

/-- pyotp `OTP.generate_otp` for a non-negative counter: HMAC the
8-byte big-endian counter with the key, apply RFC 4226 dynamic
truncation (offset from the low nibble of the last digest byte, 31-bit
big-endian word at that offset), reduce modulo 10 ^ 6 and left-pad the
decimal string with zeros to 6 digits.  The bit operations
`x & 0xF`, `x & 0x7F`, `x & 0xFF` and the `|` of disjoint shifted
fields are written as the equal `%` and `+` expressions. -/
def generate_otp (hm : HmacFn) (key : List Nat) (input : Nat) : String :=
  let h := hm key (int_to_bytestring input)
  let offset := h.getD (h.length - 1) 0 % 16
  let code := h.getD offset 0 % 128 * 2 ^ 24 + h.getD (offset + 1) 0 % 256 * 2 ^ 16 +
              h.getD (offset + 2) 0 % 256 * 2 ^ 8 + h.getD (offset + 3) 0 % 256
  let strCode := pyStr (code % 10 ^ TOTP_DIGITS)
  ⟨List.replicate (TOTP_DIGITS - strCode.length) '0' ++ strCode.data⟩

/-- crypto_utils.py lines 114-130: hex-decode the seed
(`bytes.fromhex` raises ValueError on a malformed hex string) and
base32-encode the bytes. -/
def hex_to_base32 (hex_seed : String) : Except PyErr String :=
  match hexDecode hex_seed with
  | none => .error .hexValue
  | some seed_bytes => .ok (b32encode seed_bytes)

/-- pyotp `OTP.byte_secret`: pad the base32 secret to a multiple of
eight characters with '=' and decode it with casefold. -/
def byte_secret (secret : String) : Except PyErr (List Nat) :=
  b32decodePy ⟨secret.data ++ List.replicate ((8 - secret.length % 8) % 8) '='⟩

/-- The code the TOTP object of crypto_utils.py produces for one given
counter value: pyotp `TOTP.at` on the pipeline of `generate_totp_code`
(hex seed to base32, base32 back to key bytes, then
`generate_otp`). -/
def totp_code_at (hm : HmacFn) (hex_seed : String) (timestep : Nat) : Except PyErr String := do
  let base32_seed ← hex_to_base32 hex_seed
  let key ← byte_secret base32_seed
  .ok (generate_otp hm key timestep)

/-- crypto_utils.py lines 133-152 (`generate_totp_code`) with the
wall-clock reading `now` (Unix seconds, `int(time.time())`) made an
explicit argument: pyotp `TOTP.now` uses the counter
`now / TOTP_PERIOD` (pyotp `timecode`, floored division). -/
def generate_totp_code (hm : HmacFn) (hex_seed : String) (now : Nat) : Except PyErr String :=
  totp_code_at hm hex_seed (now / TOTP_PERIOD)

/-- crypto_utils.py lines 155-165 with the wall clock explicit. -/
def get_totp_remaining_seconds (now : Nat) : Nat :=
  TOTP_PERIOD - now % TOTP_PERIOD

/-- crypto_utils.py lines 168-189 (`verify_totp_code`) with the wall
clock explicit.  pyotp `TOTP.verify`: with a zero window, one string
comparison at the current counter; otherwise the candidate is compared
against the codes of every counter from `timestep - valid_window` to
`timestep + valid_window`.  A counter below zero (possible only when
`timestep < valid_window`, at the very first iteration) makes pyotp
`generate_otp` raise ValueError before any comparison.  pyotp compares
with `strings_equal`, which NFKC-normalizes both sides before a
constant-time comparison; on the ASCII digit strings generate_otp
produces this is plain string equality, which is how it is modelled. -/
def verify_totp_code (hm : HmacFn) (hex_seed code : String) (now : Nat)
    (valid_window : Nat) : Except PyErr Bool := do
  let base32_seed ← hex_to_base32 hex_seed
  let key ← byte_secret base32_seed
  let timestep := now / TOTP_PERIOD
  if valid_window = 0 then
    .ok (code == generate_otp hm key timestep)
  else if timestep < valid_window then
    .error .negInput
  else
    .ok (((List.range (2 * valid_window + 1)).map
            (fun j => timestep - valid_window + j)).any
          (fun t => code == generate_otp hm key t))

/-! The RSA layer.  crypto_utils.py delegates OAEP encryption and
decryption and PSS signing to the `cryptography` library; the claims
constrain only the documented contract of those primitives (payload
capacity, error classes, output length, decrypt of encrypt), so the
primitives are abstracted as a structure carrying that contract. -/

/-- Hash algorithm selector (`hashes.SHA1()` / `hashes.SHA256()`). -/
inductive HashAlg where
  | sha1
  | sha256
deriving DecidableEq

/-- The `padding.OAEP(mgf=MGF1(algorithm=h1), algorithm=h2, label=None)`
configuration object (the label is always None in this repository and
is not modelled). -/
structure OAEPParams where
  mgfAlg : HashAlg
  alg : HashAlg
deriving DecidableEq

/-- Salt length selector for PSS (`padding.PSS.MAX_LENGTH` or an
explicit byte count). -/
inductive SaltSpec where
  | maxLength
  | fixed (n : Nat)
deriving DecidableEq

/-- The `padding.PSS(mgf=MGF1(h1), salt_length=s)` configuration object
together with the digest passed alongside it to `sign`. -/
structure PSSParams where
  mgfAlg : HashAlg
  saltLength : SaltSpec
  digestAlg : HashAlg
deriving DecidableEq

/-- The OAEP configuration crypto_utils.py builds at lines 94-98 and
233-237: SHA-256 as both the MGF1 digest and the main digest. -/
def oaepSha256 : OAEPParams := ⟨.sha256, .sha256⟩

/-- The PSS configuration crypto_utils.py builds at lines 209-213:
MGF1 over SHA-256, maximum salt length, SHA-256 digest. -/
def pssMaxSha256 : PSSParams := ⟨.sha256, .maxLength, .sha256⟩

/-- An RSA key pair of modulus size `kBits`, abstracted as the three
primitives of the `cryptography` library the repository calls,
constrained by that library's documented behaviour at the SHA-256
OAEP configuration (hash length 32, so the OAEP payload capacity is
`kBits / 8 - 2 * 32 - 2` bytes):
`encrypt_ok` - a payload within capacity encrypts to a ciphertext of
exactly the modulus size;
`encrypt_too_large` - a payload over capacity raises the
data-too-long ValueError;
`decrypt_encrypt` - decryption inverts encryption under the same key;
`decrypt_err_class` - every decryption failure surfaces as the same
single error class (ValueError: wrong length, padding mismatch, wrong
key and corrupt ciphertext are indistinguishable);
`decrypt_bad_length` - a ciphertext whose length differs from the
modulus size always fails;
`sign_length` - a PSS signature is exactly the modulus size. -/
structure RSAScheme (kBits : Nat) where
  encryptOAEP : List Nat → OAEPParams → Except PyErr (List Nat)
  decryptOAEP : List Nat → OAEPParams → Except PyErr (List Nat)
  signPSS : List Nat → PSSParams → List Nat
  encrypt_ok : ∀ pt, isBytes pt → pt.length + 66 ≤ kBits / 8 →
    ∃ ct, encryptOAEP pt oaepSha256 = .ok ct ∧ ct.length = kBits / 8 ∧ isBytes ct
  encrypt_too_large : ∀ pt, kBits / 8 < pt.length + 66 →
    encryptOAEP pt oaepSha256 = .error .oaepTooLarge
  decrypt_encrypt : ∀ pt ct, encryptOAEP pt oaepSha256 = .ok ct →
    decryptOAEP ct oaepSha256 = .ok pt
  decrypt_err_class : ∀ ct p e, decryptOAEP ct p = .error e → e = .oaepDecrypt
  decrypt_bad_length : ∀ ct, ct.length ≠ kBits / 8 →
    decryptOAEP ct oaepSha256 = .error .oaepDecrypt
  sign_length : ∀ msg p, (signPSS msg p).length = kBits / 8

/-- crypto_utils.py line 108 membership test
`c in '0123456789abcdef'`: that Python string literal contains exactly
the characters with codes 48-57 and 97-102. -/
def isLowerHexDigit (c : Char) : Bool :=
  (48 ≤ c.toNat && c.toNat ≤ 57) || (97 ≤ c.toNat && c.toNat ≤ 102)

/-- crypto_utils.py lines 104-111, the validation stage of
`decrypt_seed`: reject a length other than 64, reject any character
whose Python-lowercased form is not a lowercase hex digit, and return
the string - unmodified - otherwise. -/
def validate_seed (hex_seed : String) : Except PyErr String :=
  if hex_seed.length ≠ 64 then .error (.seedLen hex_seed.length)
  else if ¬(hex_seed.data.map pyLower).all isLowerHexDigit then .error .seedChars
  else .ok hex_seed

/-- crypto_utils.py lines 74-111 (`decrypt_seed`), over an abstract
private key: base64-decode the transport text, RSA/OAEP-SHA256
decrypt, decode the plaintext as UTF-8, validate as a 64-character hex
seed. -/
def decrypt_seed {k : Nat} (R : RSAScheme k) (encrypted_seed_b64 : String) :
    Except PyErr String := do
  let encrypted_seed_bytes ← pythonB64Decode encrypted_seed_b64
  let decrypted_bytes ← R.decryptOAEP encrypted_seed_bytes oaepSha256
  match utf8Decode decrypted_bytes with
  | none => .error .utf8Invalid
  | some hex_seed => validate_seed hex_seed

/-- crypto_utils.py lines 192-216 (`sign_message`): sign the UTF-8
bytes of the message with RSA-PSS, MGF1-SHA256, maximum salt length
and SHA-256 digest. -/
def sign_message {k : Nat} (R : RSAScheme k) (message : String) : List Nat :=
  R.signPSS (utf8Encode message) pssMaxSha256

/-- crypto_utils.py lines 219-240 (`encrypt_with_public_key`):
RSA/OAEP-SHA256 encryption of raw bytes. -/
def encrypt_with_public_key {k : Nat} (R : RSAScheme k) (data : List Nat) :
    Except PyErr (List Nat) :=
  R.encryptOAEP data oaepSha256

/-- The proof pipeline of scripts/generate_proof.py `main`
(lines 44-66): sign the commit hash with the holder (student) private
key, encrypt the signature with the issuer (instructor) public key,
base64-encode the result. -/
def buildProof {kh ki : Nat} (holder : RSAScheme kh) (issuer : RSAScheme ki)
    (commit_hash : String) : Except PyErr String := do
  let signature := sign_message holder commit_hash
  let encrypted_signature ← encrypt_with_public_key issuer signature
  .ok (b64encode encrypted_signature)

/-! A concrete 4096-bit instance of the RSA contract, used to evaluate
the theorems on explicit inputs.  It packages the plaintext length in
two bytes followed by the plaintext and zero filler - enough to
satisfy every contract field. -/

/-- Ciphertext layout of the concrete instance: two big-endian length
bytes, the payload, zero filler up to 512 bytes. -/
def toyCiphertext (pt : List Nat) : List Nat :=
  pt.length / 256 :: pt.length % 256 :: (pt ++ List.replicate (510 - pt.length) 0)

/-- Decryption of the concrete instance: check the 512-byte length,
read the two length bytes, return that many payload bytes. -/
def toyDecrypt (ct : List Nat) : Except PyErr (List Nat) :=
  match ct with
  | l1 :: l2 :: restCt =>
    if restCt.length = 510 then
      if l1 * 256 + l2 + 66 ≤ 512 then .ok (restCt.take (l1 * 256 + l2))
      else .error .oaepDecrypt
    else .error .oaepDecrypt
  | _ => .error .oaepDecrypt

def toyRSA : RSAScheme 4096 where
  encryptOAEP pt _ :=
    if pt.length + 66 ≤ 512 then .ok (toyCiphertext pt) else .error .oaepTooLarge
  decryptOAEP ct _ := toyDecrypt ct
  signPSS _ _ := List.replicate 512 7
  encrypt_ok := by
    intro pt hb hlen
    refine ⟨toyCiphertext pt, by simp [show pt.length + 66 ≤ 512 from hlen], ?_, ?_⟩
    · simp [toyCiphertext]; omega
    · intro b hbmem
      simp [toyCiphertext] at hbmem
      rcases hbmem with h | h | h | h
      · omega
      · omega
      · exact hb b h
      · omega
  encrypt_too_large := by
    intro pt hlen
    simp [show ¬(pt.length + 66 ≤ 512) by omega]
  decrypt_encrypt := by
    intro pt ct hok
    replace hok : (if pt.length + 66 ≤ 512 then Except.ok (toyCiphertext pt)
        else Except.error PyErr.oaepTooLarge) = Except.ok ct := hok
    by_cases hlen : pt.length + 66 ≤ 512
    · rw [if_pos hlen] at hok
      cases hok
      show toyDecrypt (toyCiphertext pt) = .ok pt
      simp only [toyCiphertext, toyDecrypt]
      have hrest : (pt ++ List.replicate (510 - pt.length) 0).length = 510 := by
        rw [List.length_append, List.length_replicate]; omega
      rw [if_pos hrest,
          if_pos (show pt.length / 256 * 256 + pt.length % 256 + 66 ≤ 512 by omega)]
      have hn : pt.length / 256 * 256 + pt.length % 256 = pt.length := by omega
      rw [hn, List.take_left]
    · rw [if_neg hlen] at hok
      exact Except.noConfusion hok
  decrypt_err_class := by
    intro ct p e h
    match ct with
    | [] => exact (Except.error.inj h).symm
    | [_] => exact (Except.error.inj h).symm
    | l1 :: l2 :: restCt =>
      simp only [toyDecrypt] at h
      by_cases h510 : restCt.length = 510
      · rw [if_pos h510] at h
        by_cases hn : l1 * 256 + l2 + 66 ≤ 512
        · rw [if_pos hn] at h; exact Except.noConfusion h
        · rw [if_neg hn] at h; exact (Except.error.inj h).symm
      · rw [if_neg h510] at h; exact (Except.error.inj h).symm
  decrypt_bad_length := by
    intro ct hlen
    match ct with
    | [] => rfl
    | [_] => rfl
    | l1 :: l2 :: restCt =>
      show toyDecrypt _ = _
      simp only [toyDecrypt]
      rw [if_neg (show ¬restCt.length = 510 by
        simp only [List.length_cons] at hlen
        intro hc
        exact hlen (by rw [hc]))]
  sign_length := by
    intro msg p
    show (List.replicate 512 7).length = 4096 / 8
    rw [List.length_replicate]

example : decrypt_seed toyRSA "!!!!" = .error .oaepDecrypt := by decide

/-! Round-trip of the base64 transport encoding. -/

theorem b64CharVal_alpha : ∀ v < 64, b64CharVal (b64AlphaChar v) = some v := by decide

theorem b64Alpha_ne_pad : ∀ v < 64, b64AlphaChar v ≠ '=' := by decide

theorem a2bLoop_encode (bs : List Nat) (hb : isBytes bs) :
    ∀ out, a2bLoop (b64encodeChunks bs) 0 0 0 out = .ok (out ++ bs) := by
  induction bs using b64encodeChunks.induct with
  | case1 =>
    intro out
    simp [b64encodeChunks, a2bLoop]
  | case2 a =>
    intro out
    have ha : a < 256 := hb a (by simp)
    have e1 := b64CharVal_alpha (a / 4) (by omega)
    have e2 := b64CharVal_alpha (a % 4 * 16) (by omega)
    have n1 := b64Alpha_ne_pad (a / 4) (by omega)
    have n2 := b64Alpha_ne_pad (a % 4 * 16) (by omega)
    simp only [b64encodeChunks, a2bLoop, e1, e2, if_neg n1, if_neg n2]
    norm_num
    omega
  | case3 a b =>
    intro out
    have ha : a < 256 := hb a (by simp)
    have hb' : b < 256 := hb b (by simp)
    have e1 := b64CharVal_alpha (a / 4) (by omega)
    have e2 := b64CharVal_alpha (a % 4 * 16 + b / 16) (by omega)
    have e3 := b64CharVal_alpha (b % 16 * 4) (by omega)
    have n1 := b64Alpha_ne_pad (a / 4) (by omega)
    have n2 := b64Alpha_ne_pad (a % 4 * 16 + b / 16) (by omega)
    have n3 := b64Alpha_ne_pad (b % 16 * 4) (by omega)
    simp only [b64encodeChunks, a2bLoop, e1, e2, e3, if_neg n1, if_neg n2, if_neg n3]
    norm_num
    constructor
    · omega
    · omega
  | case4 a b c rest ih =>
    intro out
    have ha : a < 256 := hb a (by simp)
    have hbb : b < 256 := hb b (by simp)
    have hc : c < 256 := hb c (by simp)
    have hrest : isBytes rest := fun x hx => hb x (by simp [hx])
    have e1 := b64CharVal_alpha (a / 4) (by omega)
    have e2 := b64CharVal_alpha (a % 4 * 16 + b / 16) (by omega)
    have e3 := b64CharVal_alpha (b % 16 * 4 + c / 64) (by omega)
    have e4 := b64CharVal_alpha (c % 64) (by omega)
    have n1 := b64Alpha_ne_pad (a / 4) (by omega)
    have n2 := b64Alpha_ne_pad (a % 4 * 16 + b / 16) (by omega)
    have n3 := b64Alpha_ne_pad (b % 16 * 4 + c / 64) (by omega)
    have n4 := b64Alpha_ne_pad (c % 64) (by omega)
    simp only [b64encodeChunks, a2bLoop, e1, e2, e3, e4,
               if_neg n1, if_neg n2, if_neg n3, if_neg n4]
    have hx1 : a / 4 * 4 + (a % 4 * 16 + b / 16) / 16 = a := by omega
    have hx2 : (a % 4 * 16 + b / 16) % 16 * 16 + (b % 16 * 4 + c / 64) / 4 = b := by
      omega
    have hx3 : (b % 16 * 4 + c / 64) % 4 * 64 + c % 64 = c := by omega
    rw [hx1, hx2, hx3, ih hrest]
    simp

theorem b64Alpha_ascii : ∀ v < 64, (b64AlphaChar v).toNat < 128 := by decide

theorem b64encodeChunks_ascii (bs : List Nat) (hb : isBytes bs) :
    ∀ c ∈ b64encodeChunks bs, c.toNat < 128 := by
  induction bs using b64encodeChunks.induct with
  | case1 => simp [b64encodeChunks]
  | case2 a =>
    have ha : a < 256 := hb a (by simp)
    intro c hc
    simp only [b64encodeChunks, List.mem_cons, List.not_mem_nil, or_false] at hc
    rcases hc with rfl | rfl | rfl | rfl <;>
      first | exact b64Alpha_ascii _ (by omega) | decide
  | case3 a b =>
    have ha : a < 256 := hb a (by simp)
    have hb' : b < 256 := hb b (by simp)
    intro c hc
    simp only [b64encodeChunks, List.mem_cons, List.not_mem_nil, or_false] at hc
    rcases hc with rfl | rfl | rfl | rfl <;>
      first | exact b64Alpha_ascii _ (by omega) | decide
  | case4 a b c rest ih =>
    have ha : a < 256 := hb a (by simp)
    have hbb : b < 256 := hb b (by simp)
    have hc' : c < 256 := hb c (by simp)
    have hrest : isBytes rest := fun x hx => hb x (by simp [hx])
    intro x hx
    simp only [b64encodeChunks, List.mem_cons] at hx
    rcases hx with rfl | rfl | rfl | rfl | h
    · exact b64Alpha_ascii _ (by omega)
    · exact b64Alpha_ascii _ (by omega)
    · exact b64Alpha_ascii _ (by omega)
    · exact b64Alpha_ascii _ (by omega)
    · exact ih hrest x h

/-- Round trip of the base64 transport boundary: Python
`base64.b64decode` inverts `base64.b64encode` on every byte list. -/
theorem pythonB64Decode_encode (bs : List Nat) (hb : isBytes bs) :
    pythonB64Decode (b64encode bs) = .ok bs := by
  unfold pythonB64Decode
  rw [if_pos (by
    rw [List.all_eq_true]
    exact fun c hc => decide_eq_true (b64encodeChunks_ascii bs hb c hc))]
  exact a2bLoop_encode bs hb []

/-! Round-trip of the base32 encoding used for the TOTP secret. -/

theorem b32CharVal_char : ∀ v < 32, b32CharVal (b32Char v) = some v := by decide

theorem b32Char_ne_pad : ∀ v < 32, b32Char v ≠ '=' := by decide

theorem pyUpper_b32Char : ∀ v < 32, pyUpper (b32Char v) = b32Char v := by decide

/-- The data characters of `b32encodeChunks`, without the '=' tail. -/
def b32Body : List Nat → List Char
  | [] => []
  | [a] => [b32Char (a / 8), b32Char (a % 8 * 4)]
  | [a, b] =>
    [b32Char (a / 8), b32Char (a % 8 * 4 + b / 64), b32Char (b / 2 % 32),
     b32Char (b % 2 * 16)]
  | [a, b, c] =>
    [b32Char (a / 8), b32Char (a % 8 * 4 + b / 64), b32Char (b / 2 % 32),
     b32Char (b % 2 * 16 + c / 16), b32Char (c % 16 * 2)]
  | [a, b, c, d] =>
    [b32Char (a / 8), b32Char (a % 8 * 4 + b / 64), b32Char (b / 2 % 32),
     b32Char (b % 2 * 16 + c / 16), b32Char (c % 16 * 2 + d / 128),
     b32Char (d / 4 % 32), b32Char (d % 4 * 8)]
  | a :: b :: c :: d :: e :: rest =>
    b32Char (a / 8) :: b32Char (a % 8 * 4 + b / 64) :: b32Char (b / 2 % 32) ::
    b32Char (b % 2 * 16 + c / 16) :: b32Char (c % 16 * 2 + d / 128) ::
    b32Char (d / 4 % 32) :: b32Char (d % 4 * 8 + e / 32) :: b32Char (e % 32) ::
    b32Body rest

/-- Number of '=' characters `b32encodeChunks` appends. -/
def b32Pads : List Nat → Nat
  | [] => 0
  | [_] => 6
  | [_, _] => 4
  | [_, _, _] => 3
  | [_, _, _, _] => 1
  | _ :: _ :: _ :: _ :: _ :: rest => b32Pads rest

/-- The final-quantum reconstruction of `b32decodePy`, as a function
of the last accumulator and the padding amount. -/
def fixTail (acc pads : Nat) : List Nat :=
  if pads = 0 then toBytes5 acc
  else (toBytes5 (acc * 2 ^ (5 * pads))).take ((43 - 5 * pads) / 8)

theorem b32encodeChunks_eq_body (bs : List Nat) :
    b32encodeChunks bs = b32Body bs ++ List.replicate (b32Pads bs) '=' := by
  induction bs using b32Body.induct with
  | case1 => simp [b32encodeChunks, b32Body, b32Pads]
  | case2 a => simp [b32encodeChunks, b32Body, b32Pads]
  | case3 a b => simp [b32encodeChunks, b32Body, b32Pads]
  | case4 a b c => simp [b32encodeChunks, b32Body, b32Pads]
  | case5 a b c d => simp [b32encodeChunks, b32Body, b32Pads]
  | case6 a b c d e rest ih =>
    simp [b32encodeChunks, b32Body, b32Pads, ih]

theorem b32Pads_cases (bs : List Nat) :
    b32Pads bs = 0 ∨ b32Pads bs = 1 ∨ b32Pads bs = 3 ∨ b32Pads bs = 4 ∨
    b32Pads bs = 6 := by
  induction bs using b32Pads.induct with
  | case1 => simp [b32Pads]
  | case2 => simp [b32Pads]
  | case3 => simp [b32Pads]
  | case4 => simp [b32Pads]
  | case5 => simp [b32Pads]
  | case6 _ _ _ _ _ rest ih => simpa [b32Pads] using ih

theorem b32Body_chars (bs : List Nat) (hb : isBytes bs) :
    ∀ c ∈ b32Body bs, ∃ v, v < 32 ∧ c = b32Char v := by
  induction bs using b32Body.induct with
  | case1 => simp [b32Body]
  | case2 a =>
    have ha : a < 256 := hb a (by simp)
    intro c hc
    simp [b32Body] at hc
    rcases hc with h | h <;> exact ⟨_, by omega, h⟩
  | case3 a b =>
    have ha : a < 256 := hb a (by simp)
    have hb' : b < 256 := hb b (by simp)
    intro c hc
    simp [b32Body] at hc
    rcases hc with h | h | h | h <;> exact ⟨_, by omega, h⟩
  | case4 a b c =>
    have ha : a < 256 := hb a (by simp)
    have hb' : b < 256 := hb b (by simp)
    have hc' : c < 256 := hb c (by simp)
    intro x hx
    simp [b32Body] at hx
    rcases hx with h | h | h | h | h <;> exact ⟨_, by omega, h⟩
  | case5 a b c d =>
    have ha : a < 256 := hb a (by simp)
    have hb' : b < 256 := hb b (by simp)
    have hc' : c < 256 := hb c (by simp)
    have hd : d < 256 := hb d (by simp)
    intro x hx
    simp [b32Body] at hx
    rcases hx with h | h | h | h | h | h | h <;> exact ⟨_, by omega, h⟩
  | case6 a b c d e rest ih =>
    have ha : a < 256 := hb a (by simp)
    have hb' : b < 256 := hb b (by simp)
    have hc' : c < 256 := hb c (by simp)
    have hd : d < 256 := hb d (by simp)
    have he : e < 256 := hb e (by simp)
    have hrest : isBytes rest := fun x hx => hb x (by simp [hx])
    intro x hx
    simp only [b32Body, List.mem_cons] at hx
    rcases hx with h | h | h | h | h | h | h | h | h
    all_goals first
      | exact ⟨_, by omega, h⟩
      | exact ih hrest x h

theorem b32Body_ne_nil (bs : List Nat) (h : bs ≠ []) : b32Body bs ≠ [] := by
  match bs with
  | [] => exact absurd rfl h
  | [_] => simp [b32Body]
  | [_, _] => simp [b32Body]
  | [_, _, _] => simp [b32Body]
  | [_, _, _, _] => simp [b32Body]
  | _ :: _ :: _ :: _ :: _ :: _ => simp [b32Body]

theorem dropWhile_replicate_pad (p : Nat) :
    (List.replicate p '=').dropWhile (fun c => c = '=') = [] := by
  induction p with
  | zero => rfl
  | succ n ih => simp [List.replicate_succ, List.dropWhile_cons, ih]

theorem rstripPad_append_pads (l : List Char) (p : Nat) :
    rstripPad (l ++ List.replicate p '=') = rstripPad l := by
  unfold rstripPad
  rw [List.reverse_append, List.reverse_replicate, List.dropWhile_append,
      dropWhile_replicate_pad]
  simp

theorem rstripPad_all_ne (l : List Char) (h : ∀ c ∈ l, c ≠ '=') : rstripPad l = l := by
  unfold rstripPad
  have hdrop : l.reverse.dropWhile (fun c => c = '=') = l.reverse := by
    match hrev : l.reverse with
    | [] => rfl
    | c :: t =>
      have hc : c ∈ l := by
        rw [← List.mem_reverse, hrev]; simp
      rw [List.dropWhile_cons, if_neg (by simpa using h c hc)]
  rw [hdrop, List.reverse_reverse]

theorem map_pyUpper_b32encode (bs : List Nat) (hb : isBytes bs) :
    (b32encodeChunks bs).map pyUpper = b32encodeChunks bs := by
  rw [b32encodeChunks_eq_body, List.map_append]
  congr 1
  · have hchars := b32Body_chars bs hb
    rw [show (b32Body bs).map pyUpper = (b32Body bs).map id from ?_, List.map_id]
    apply List.map_congr_left
    intro c hc
    obtain ⟨v, hv, rfl⟩ := hchars c hc
    simpa using pyUpper_b32Char v hv
  · rw [List.map_replicate, show pyUpper '=' = '=' from by decide]

theorem rstripPad_b32encode (bs : List Nat) (hb : isBytes bs) :
    rstripPad (b32encodeChunks bs) = b32Body bs := by
  rw [b32encodeChunks_eq_body, rstripPad_append_pads]
  apply rstripPad_all_ne
  intro c hc
  obtain ⟨v, hv, rfl⟩ := b32Body_chars bs hb c hc
  exact b32Char_ne_pad v hv


theorem except_bind_ok {ε α β : Type} (a : α) (f : α → Except ε β) :
    (Except.ok a : Except ε α) >>= f = f a := rfl

theorem b32Groups_body (bs : List Nat) (hb : isBytes bs) (hne : bs ≠ []) :
    ∃ pre acc, b32Groups (b32Body bs) = .ok (pre ++ toBytes5 acc, acc) ∧
      pre ++ fixTail acc (b32Pads bs) = bs := by
  induction bs using b32Body.induct with
  | case1 => exact absurd rfl hne
  | case2 a =>
    have ha : a < 256 := hb a (by simp)
    refine ⟨[], (0 * 32 + a / 8) * 32 + a % 8 * 4, ?_, ?_⟩
    · simp only [b32Body, b32Groups, b32AccOf,
        b32CharVal_char (a / 8) (by omega),
        b32CharVal_char (a % 8 * 4) (by omega), except_bind_ok, List.nil_append]
    · simp [fixTail, b32Pads, toBytes5]
      omega
  | case3 a b =>
    have ha : a < 256 := hb a (by simp)
    have hb' : b < 256 := hb b (by simp)
    refine ⟨[], (((0 * 32 + a / 8) * 32 + (a % 8 * 4 + b / 64)) * 32 + b / 2 % 32) *
        32 + b % 2 * 16, ?_, ?_⟩
    · simp only [b32Body, b32Groups, b32AccOf,
        b32CharVal_char (a / 8) (by omega),
        b32CharVal_char (a % 8 * 4 + b / 64) (by omega),
        b32CharVal_char (b / 2 % 32) (by omega),
        b32CharVal_char (b % 2 * 16) (by omega), except_bind_ok, List.nil_append]
    · simp [fixTail, b32Pads, toBytes5]
      omega
  | case4 a b c =>
    have ha : a < 256 := hb a (by simp)
    have hb' : b < 256 := hb b (by simp)
    have hc : c < 256 := hb c (by simp)
    refine ⟨[], ((((0 * 32 + a / 8) * 32 + (a % 8 * 4 + b / 64)) * 32 + b / 2 % 32) *
        32 + (b % 2 * 16 + c / 16)) * 32 + c % 16 * 2, ?_, ?_⟩
    · simp only [b32Body, b32Groups, b32AccOf,
        b32CharVal_char (a / 8) (by omega),
        b32CharVal_char (a % 8 * 4 + b / 64) (by omega),
        b32CharVal_char (b / 2 % 32) (by omega),
        b32CharVal_char (b % 2 * 16 + c / 16) (by omega),
        b32CharVal_char (c % 16 * 2) (by omega), except_bind_ok, List.nil_append]
    · simp [fixTail, b32Pads, toBytes5]
      omega
  | case5 a b c d =>
    have ha : a < 256 := hb a (by simp)
    have hb' : b < 256 := hb b (by simp)
    have hc : c < 256 := hb c (by simp)
    have hd : d < 256 := hb d (by simp)
    refine ⟨[], ((((((0 * 32 + a / 8) * 32 + (a % 8 * 4 + b / 64)) * 32 +
        b / 2 % 32) * 32 + (b % 2 * 16 + c / 16)) * 32 + (c % 16 * 2 + d / 128)) *
        32 + d / 4 % 32) * 32 + d % 4 * 8, ?_, ?_⟩
    · simp only [b32Body, b32Groups, b32AccOf,
        b32CharVal_char (a / 8) (by omega),
        b32CharVal_char (a % 8 * 4 + b / 64) (by omega),
        b32CharVal_char (b / 2 % 32) (by omega),
        b32CharVal_char (b % 2 * 16 + c / 16) (by omega),
        b32CharVal_char (c % 16 * 2 + d / 128) (by omega),
        b32CharVal_char (d / 4 % 32) (by omega),
        b32CharVal_char (d % 4 * 8) (by omega), except_bind_ok, List.nil_append]
    · simp [fixTail, b32Pads, toBytes5]
      omega
  | case6 a b c d e rest ih =>
    have ha : a < 256 := hb a (by simp)
    have hb' : b < 256 := hb b (by simp)
    have hc : c < 256 := hb c (by simp)
    have hd : d < 256 := hb d (by simp)
    have he : e < 256 := hb e (by simp)
    have hrest : isBytes rest := fun x hx => hb x (by simp [hx])
    by_cases hrn : rest = []
    · subst hrn
      refine ⟨[], (((((((0 * 32 + a / 8) * 32 + (a % 8 * 4 + b / 64)) * 32 +
          b / 2 % 32) * 32 + (b % 2 * 16 + c / 16)) * 32 + (c % 16 * 2 + d / 128)) *
          32 + d / 4 % 32) * 32 + (d % 4 * 8 + e / 32)) * 32 + e % 32, ?_, ?_⟩
      · simp only [b32Body, b32Groups, b32AccOf,
          b32CharVal_char (a / 8) (by omega),
          b32CharVal_char (a % 8 * 4 + b / 64) (by omega),
          b32CharVal_char (b / 2 % 32) (by omega),
          b32CharVal_char (b % 2 * 16 + c / 16) (by omega),
          b32CharVal_char (c % 16 * 2 + d / 128) (by omega),
          b32CharVal_char (d / 4 % 32) (by omega),
          b32CharVal_char (d % 4 * 8 + e / 32) (by omega),
          b32CharVal_char (e % 32) (by omega), except_bind_ok, List.nil_append]
      · simp [fixTail, b32Pads, toBytes5]
        omega
    · obtain ⟨pre, acc, hgr, hfix⟩ := ih hrest hrn
      obtain ⟨h0, t0, ht0⟩ := List.exists_cons_of_ne_nil (b32Body_ne_nil rest hrn)
      rw [ht0] at hgr
      refine ⟨toBytes5 ((((((((0 * 32 + a / 8) * 32 + (a % 8 * 4 + b / 64)) * 32 +
          b / 2 % 32) * 32 + (b % 2 * 16 + c / 16)) * 32 + (c % 16 * 2 + d / 128)) *
          32 + d / 4 % 32) * 32 + (d % 4 * 8 + e / 32)) * 32 + e % 32) ++ pre,
          acc, ?_, ?_⟩
      · show b32Groups (b32Body (a :: b :: c :: d :: e :: rest)) = _
        simp only [b32Body, ht0, b32Groups, b32AccOf,
          b32CharVal_char (a / 8) (by omega),
          b32CharVal_char (a % 8 * 4 + b / 64) (by omega),
          b32CharVal_char (b / 2 % 32) (by omega),
          b32CharVal_char (b % 2 * 16 + c / 16) (by omega),
          b32CharVal_char (c % 16 * 2 + d / 128) (by omega),
          b32CharVal_char (d / 4 % 32) (by omega),
          b32CharVal_char (d % 4 * 8 + e / 32) (by omega),
          b32CharVal_char (e % 32) (by omega), except_bind_ok, hgr]
        rw [List.append_assoc]
      · have hpads : b32Pads (a :: b :: c :: d :: e :: rest) = b32Pads rest := by
          match rest, hrn with
          | x :: t, _ => rfl
        rw [hpads, List.append_assoc, hfix]
        simp only [toBytes5, List.cons_append, List.nil_append, List.cons.injEq]
        refine ⟨by omega, by omega, by omega, by omega, by omega, trivial⟩

/-- Round trip of the base32 secret encoding: Python
`base64.b32decode(s, casefold=True)` inverts `base64.b32encode` on
every byte list. -/
theorem b32encodeChunks_length_mod (bs : List Nat) :
    (b32encodeChunks bs).length % 8 = 0 := by
  induction bs using b32Body.induct with
  | case1 => simp [b32encodeChunks]
  | case2 a => simp [b32encodeChunks]
  | case3 a b => simp [b32encodeChunks]
  | case4 a b c => simp [b32encodeChunks]
  | case5 a b c d => simp [b32encodeChunks]
  | case6 a b c d e rest ih =>
    simp only [b32encodeChunks, List.length_cons]
    omega

theorem b32decodePy_encode (bs : List Nat) (hb : isBytes bs) :
    b32decodePy (b32encode bs) = .ok bs := by
  by_cases hne : bs = []
  · subst hne; decide
  · have hlen8 : (b32encodeChunks bs).length % 8 = 0 := b32encodeChunks_length_mod bs
    obtain ⟨pre, acc, hgr, hfix⟩ := b32Groups_body bs hb hne
    have hup : (b32encodeChunks bs).map pyUpper = b32encodeChunks bs :=
      map_pyUpper_b32encode bs hb
    have hstrip : rstripPad (b32encodeChunks bs) = b32Body bs :=
      rstripPad_b32encode bs hb
    have hblen : (b32encodeChunks bs).length = (b32Body bs).length + b32Pads bs := by
      rw [b32encodeChunks_eq_body]; simp
    show b32decodePy ⟨b32encodeChunks bs⟩ = .ok bs
    unfold b32decodePy
    rw [if_neg (by simpa [String.length] using hlen8)]
    simp only [String.length, hup, hstrip, hgr, hblen]
    have hpadsub : (b32Body bs).length + b32Pads bs - (b32Body bs).length =
        b32Pads bs := by omega
    rw [hpadsub]
    rcases b32Pads_cases bs with hp | hp | hp | hp | hp
    · rw [hp] at hfix ⊢
      rw [if_neg (by norm_num)]
      rw [if_neg (by norm_num)]
      simpa [fixTail] using hfix
    · rw [hp] at hfix ⊢
      rw [if_neg (by norm_num)]
      rw [if_pos ⟨by norm_num, by simp [toBytes5]⟩]
      rw [show (pre ++ toBytes5 acc).length - 5 = pre.length by simp [toBytes5]]
      rw [List.take_left]
      simpa [fixTail] using hfix
    · rw [hp] at hfix ⊢
      rw [if_neg (by norm_num)]
      rw [if_pos ⟨by norm_num, by simp [toBytes5]⟩]
      rw [show (pre ++ toBytes5 acc).length - 5 = pre.length by simp [toBytes5]]
      rw [List.take_left]
      simpa [fixTail] using hfix
    · rw [hp] at hfix ⊢
      rw [if_neg (by norm_num)]
      rw [if_pos ⟨by norm_num, by simp [toBytes5]⟩]
      rw [show (pre ++ toBytes5 acc).length - 5 = pre.length by simp [toBytes5]]
      rw [List.take_left]
      simpa [fixTail] using hfix
    · rw [hp] at hfix ⊢
      rw [if_neg (by norm_num)]
      rw [if_pos ⟨by norm_num, by simp [toBytes5]⟩]
      rw [show (pre ++ toBytes5 acc).length - 5 = pre.length by simp [toBytes5]]
      rw [List.take_left]
      simpa [fixTail] using hfix

theorem byte_secret_b32encode (bs : List Nat) (hb : isBytes bs) :
    byte_secret (b32encode bs) = .ok bs := by
  unfold byte_secret
  have h8 := b32encodeChunks_length_mod bs
  have hpad : ((8 : Nat) - (b32encode bs).length % 8) % 8 = 0 := by
    have : (b32encode bs).length = (b32encodeChunks bs).length := rfl
    omega
  rw [hpad]
  show b32decodePy ⟨(b32encodeChunks bs) ++ []⟩ = .ok bs
  rw [List.append_nil]
  exact b32decodePy_encode bs hb

/-! UTF-8 facts for ASCII payloads. -/

theorem toNat_ofNat_valid {n : Nat} (h : n < 55296) : (Char.ofNat n).toNat = n := by
  rw [Char.ofNat, dif_pos (Or.inl h)]
  rfl

theorem utf8Encode_ascii_chars (l : List Char) (h : ∀ c ∈ l, c.toNat < 128) :
    (l.map utf8EncodeChar).flatten = l.map Char.toNat := by
  induction l with
  | nil => rfl
  | cons c t ih =>
    have hc : c.toNat < 128 := h c (by simp)
    have ht : ∀ x ∈ t, x.toNat < 128 := fun x hx => h x (by simp [hx])
    simp only [List.map_cons, List.flatten_cons, ih ht]
    rw [show utf8EncodeChar c = [c.toNat] by simp [utf8EncodeChar, hc]]
    rfl

theorem utf8Encode_ascii (s : String) (h : ∀ c ∈ s.data, c.toNat < 128) :
    utf8Encode s = s.data.map Char.toNat :=
  utf8Encode_ascii_chars s.data h

theorem utf8First_ascii (b : Nat) (rest : List Nat) (h : b < 128) :
    utf8First (b :: rest) = some (Char.ofNat b, rest) := by
  simp [utf8First, h]

theorem utf8DecodeAux_ascii (l : List Char) : ∀ fuel, l.length ≤ fuel →
    (∀ c ∈ l, c.toNat < 128) → utf8DecodeAux fuel (l.map Char.toNat) = some l := by
  induction l with
  | nil => intro fuel _ _; cases fuel <;> rfl
  | cons c t ih =>
    intro fuel hf h
    have hc : c.toNat < 128 := h c (by simp)
    have ht : ∀ x ∈ t, x.toNat < 128 := fun x hx => h x (by simp [hx])
    match fuel, hf with
    | f + 1, hf2 =>
      show utf8DecodeAux (f + 1) (c.toNat :: t.map Char.toNat) = some (c :: t)
      rw [utf8DecodeAux, utf8First_ascii _ _ hc]
      have hlen : t.length ≤ f := by simpa using hf2
      simp [ih f hlen ht, Char.ofNat_toNat]

theorem utf8Decode_encode_ascii (s : String) (h : ∀ c ∈ s.data, c.toNat < 128) :
    utf8Decode (utf8Encode s) = some s := by
  rw [utf8Encode_ascii s h]
  unfold utf8Decode
  rw [utf8DecodeAux_ascii s.data (s.data.map Char.toNat).length (by simp) h]
  cases s
  rfl

theorem utf8Encode_ascii_isBytes (s : String) (h : ∀ c ∈ s.data, c.toNat < 128) :
    isBytes (utf8Encode s) := by
  rw [utf8Encode_ascii s h]
  intro b hbmem
  obtain ⟨c, hc, rfl⟩ := List.mem_map.mp hbmem
  exact Nat.lt_trans (h c hc) (by norm_num)

theorem utf8Encode_ascii_length (s : String) (h : ∀ c ∈ s.data, c.toNat < 128) :
    (utf8Encode s).length = s.length := by
  rw [utf8Encode_ascii s h, List.length_map]
  rfl

/-! Decimal strings. -/

theorem pyStrAux_length (fuel : Nat) : ∀ n k, n ≤ fuel → n < 10 ^ k →
    (pyStrAux fuel n).length ≤ k := by
  induction fuel with
  | zero => intro n k _ _; simp [pyStrAux]
  | succ f ih =>
    intro n k hn hk
    match n with
    | 0 => simp [pyStrAux]
    | m + 1 =>
      have hk1 : 1 ≤ k := by
        by_contra hc
        interval_cases k
        omega
      simp only [pyStrAux, List.length_append, List.length_cons, List.length_nil]
      have hdiv : (m + 1) / 10 < 10 ^ (k - 1) := by
        rw [Nat.div_lt_iff_lt_mul (by norm_num)]
        calc m + 1 < 10 ^ k := hk
        _ = 10 ^ (k - 1) * 10 := by
          rw [← Nat.pow_succ]
          congr 1
          omega
      have := ih ((m + 1) / 10) (k - 1) (by omega) hdiv
      omega

theorem pyStrAux_digits (fuel : Nat) : ∀ n c, c ∈ pyStrAux fuel n → c.isDigit := by
  induction fuel with
  | zero => intro n c hc; simp [pyStrAux] at hc
  | succ f ih =>
    intro n c hc
    match n with
    | 0 => simp [pyStrAux] at hc
    | m + 1 =>
      simp only [pyStrAux, List.mem_append, List.mem_cons] at hc
      rcases hc with h | h
      · exact ih _ c h
      · simp only [List.not_mem_nil, or_false] at h
        subst h
        have h10 : (m + 1) % 10 < 10 := Nat.mod_lt _ (by norm_num)
        revert h10
        generalize (m + 1) % 10 = d
        revert d
        decide

theorem pyStr_length_le (n k : Nat) (hk : 1 ≤ k) (h : n < 10 ^ k) :
    (pyStr n).length ≤ k := by
  unfold pyStr
  split_ifs with h0
  · simpa using hk
  · exact pyStrAux_length n n k (le_refl n) h

theorem pyStr_digits (n : Nat) : ∀ c ∈ (pyStr n).data, c.isDigit := by
  unfold pyStr
  split_ifs with h0
  · decide
  · exact fun c hc => pyStrAux_digits n n c hc

/-! Hex decoding facts. -/

theorem hexDigitVal_lt (c : Char) (v : Nat) (h : hexDigitVal c = some v) : v < 16 := by
  unfold hexDigitVal at h
  split_ifs at h with h1 h2 h3 <;> (injection h with h; omega)

theorem hexDecodeAux_isBytes (bs : List Nat) : ∀ l : List Char,
    hexDecodeAux l = some bs → isBytes bs := by
  induction bs with
  | nil => intro l _ b hb; simp at hb
  | cons b tl ih =>
    intro l h
    match l with
    | [] => injection h with h; exact absurd h (by simp)
    | [c] => exact Option.noConfusion h
    | c1 :: c2 :: rest =>
      unfold hexDecodeAux at h
      match he1 : hexDigitVal c1, he2 : hexDigitVal c2, he3 : hexDecodeAux rest with
      | some hv, some lv, some tl2 =>
        rw [he1, he2, he3] at h
        injection h with h
        injection h with hb htl
        subst hb
        subst htl
        intro x hx
        rcases List.mem_cons.mp hx with hx | hx
        · have := hexDigitVal_lt c1 hv he1
          have := hexDigitVal_lt c2 lv he2
          omega
        · exact ih rest he3 x hx
      | some hv, some lv, none => rw [he1, he2, he3] at h; exact Option.noConfusion h
      | some hv, none, o3 => rw [he1, he2] at h; exact Option.noConfusion h
      | none, o2, o3 => rw [he1] at h; exact Option.noConfusion h

theorem hexDecodeAux_length (bs : List Nat) : ∀ l : List Char,
    hexDecodeAux l = some bs → l.length = 2 * bs.length := by
  induction bs with
  | nil =>
    intro l h
    match l with
    | [] => rfl
    | [c] => exact Option.noConfusion h
    | c1 :: c2 :: rest =>
      unfold hexDecodeAux at h
      match he1 : hexDigitVal c1, he2 : hexDigitVal c2, he3 : hexDecodeAux rest with
      | some hv, some lv, some tl2 =>
        rw [he1, he2, he3] at h
        injection h with h
        exact absurd h (by simp)
      | some hv, some lv, none => rw [he1, he2, he3] at h; exact Option.noConfusion h
      | some hv, none, o3 => rw [he1, he2] at h; exact Option.noConfusion h
      | none, o2, o3 => rw [he1] at h; exact Option.noConfusion h
  | cons b tl ih =>
    intro l h
    match l with
    | [] => injection h with h; exact absurd h (by simp)
    | [c] => exact Option.noConfusion h
    | c1 :: c2 :: rest =>
      unfold hexDecodeAux at h
      match he1 : hexDigitVal c1, he2 : hexDigitVal c2, he3 : hexDecodeAux rest with
      | some hv, some lv, some tl2 =>
        rw [he1, he2, he3] at h
        injection h with h
        injection h with hb htl
        subst htl
        have := ih rest he3
        simp only [List.length_cons]
        omega
      | some hv, some lv, none => rw [he1, he2, he3] at h; exact Option.noConfusion h
      | some hv, none, o3 => rw [he1, he2] at h; exact Option.noConfusion h
      | none, o2, o3 => rw [he1] at h; exact Option.noConfusion h

/-! Case behaviour of the validation and of hex decoding. -/

theorem hexDigitVal_pyLower (c : Char) : hexDigitVal (pyLower c) = hexDigitVal c := by
  unfold pyLower
  by_cases h : 65 ≤ c.toNat ∧ c.toNat ≤ 90
  · rw [if_pos h]
    set d := Char.ofNat (c.toNat + 32) with hd
    have ht : d.toNat = c.toNat + 32 := by
      rw [hd]; exact toNat_ofNat_valid (by omega)
    clear_value d
    unfold hexDigitVal
    rw [ht]
    split_ifs <;> first | omega | rfl
  · rw [if_neg h]

theorem hexDecodeAux_pyLower (l : List Char) :
    hexDecodeAux (l.map pyLower) = hexDecodeAux l := by
  induction l using hexDecodeAux.induct with
  | case1 => rfl
  | case2 c => rfl
  | case3 c1 c2 rest hv lv bs h3 h2 h1 ih =>
    show hexDecodeAux (pyLower c1 :: pyLower c2 :: rest.map pyLower) = _
    unfold hexDecodeAux
    rw [hexDigitVal_pyLower c1, hexDigitVal_pyLower c2, ih]
  | case4 c1 c2 rest hno ih =>
    show hexDecodeAux (pyLower c1 :: pyLower c2 :: rest.map pyLower) = _
    unfold hexDecodeAux
    rw [hexDigitVal_pyLower c1, hexDigitVal_pyLower c2, ih]

theorem hexDecode_pyLowerStr (s : String) :
    hexDecode (pyLowerStr s) = hexDecode s :=
  hexDecodeAux_pyLower s.data

theorem isLowerHexDigit_pyLower (c : Char) :
    isLowerHexDigit (pyLower c) = (hexDigitVal c).isSome := by
  unfold pyLower
  by_cases h : 65 ≤ c.toNat ∧ c.toNat ≤ 90
  · rw [if_pos h]
    set d := Char.ofNat (c.toNat + 32) with hd
    have ht : d.toNat = c.toNat + 32 := by
      rw [hd]; exact toNat_ofNat_valid (by omega)
    clear_value d
    unfold isLowerHexDigit hexDigitVal
    rw [ht]
    split_ifs <;> simp <;> omega
  · rw [if_neg h]
    unfold isLowerHexDigit hexDigitVal
    split_ifs <;> simp <;> omega

theorem all_lower_hex_iff (s : String) :
    ((s.data.map pyLower).all isLowerHexDigit = true) ↔
      ∀ c ∈ s.data, (hexDigitVal c).isSome := by
  simp only [List.all_map, List.all_eq_true, Function.comp_apply]
  exact forall_congr' fun c => forall_congr' fun hc => by
    rw [show (isLowerHexDigit (pyLower c) = true) ↔
      ((hexDigitVal c).isSome = true) from by rw [isLowerHexDigit_pyLower]]

theorem validate_seed_iff (s : String) :
    validate_seed s = .ok s ↔
      s.length = 64 ∧ ∀ c ∈ s.data, (hexDigitVal c).isSome := by
  unfold validate_seed
  constructor
  · intro h
    by_cases h1 : s.length ≠ 64
    · rw [if_pos h1] at h; exact Except.noConfusion h
    · rw [if_neg h1] at h
      by_cases h2 : ¬(s.data.map pyLower).all isLowerHexDigit
      · rw [if_pos h2] at h; exact Except.noConfusion h
      · rw [if_neg h2] at h
        rw [not_not] at h2
        exact ⟨by omega, (all_lower_hex_iff s).mp h2⟩
  · rintro ⟨hlen, hhex⟩
    rw [if_neg (by omega),
        if_neg (by rw [not_not]; exact (all_lower_hex_iff s).mpr hhex)]

theorem validate_seed_ok_shape (s r : String) (h : validate_seed s = .ok r) : r = s := by
  unfold validate_seed at h
  by_cases h1 : s.length ≠ 64
  · rw [if_pos h1] at h; exact Except.noConfusion h
  · rw [if_neg h1] at h
    by_cases h2 : ¬(s.data.map pyLower).all isLowerHexDigit
    · rw [if_pos h2] at h; exact Except.noConfusion h
    · rw [if_neg h2] at h; exact (Except.ok.inj h).symm

theorem validate_seed_error_shape (s : String) (hfail : validate_seed s ≠ .ok s) :
    validate_seed s = .error (.seedLen s.length) ∨
      validate_seed s = .error .seedChars := by
  unfold validate_seed at hfail ⊢
  by_cases h1 : s.length ≠ 64
  · rw [if_pos h1]; left; rfl
  · rw [if_neg h1] at hfail ⊢
    by_cases h2 : ¬(s.data.map pyLower).all isLowerHexDigit
    · rw [if_pos h2]; right; rfl
    · rw [if_neg h2] at hfail; exact absurd rfl hfail

/-! The shape of every code pyotp generates. -/

theorem padded_code_spec (m : Nat) (hmlt : m < 10 ^ 6) :
    ((⟨List.replicate (TOTP_DIGITS - (pyStr m).length) '0' ++
        (pyStr m).data⟩ : String).length = 6) ∧
      ∀ c ∈ (⟨List.replicate (TOTP_DIGITS - (pyStr m).length) '0' ++
        (pyStr m).data⟩ : String).data, c.isDigit := by
  have hle : (pyStr m).length ≤ 6 := pyStr_length_le m 6 (by norm_num) hmlt
  constructor
  · show (List.replicate (TOTP_DIGITS - (pyStr m).length) '0' ++
      (pyStr m).data).length = 6
    rw [List.length_append, List.length_replicate]
    have hdata : (pyStr m).data.length = (pyStr m).length := rfl
    rw [hdata]
    show TOTP_DIGITS - (pyStr m).length + (pyStr m).length = 6
    have hD : TOTP_DIGITS = 6 := rfl
    omega
  · intro c hc
    have hc2 : c ∈ List.replicate (TOTP_DIGITS - (pyStr m).length) '0' ++
        (pyStr m).data := hc
    rcases List.mem_append.mp hc2 with h | h
    · rw [List.eq_of_mem_replicate h]
      decide
    · exact pyStr_digits m c h

theorem generate_otp_spec (hm : HmacFn) (key : List Nat) (input : Nat) :
    (generate_otp hm key input).length = 6 ∧
      ∀ c ∈ (generate_otp hm key input).data, c.isDigit := by
  simp only [generate_otp]
  exact padded_code_spec _ (Nat.mod_lt _ (by norm_num [TOTP_DIGITS]))

theorem except_bind_error {ε α β : Type} (e : ε) (f : α → Except ε β) :
    (Except.error e : Except ε α) >>= f = .error e := rfl

theorem a2bLoop_error_kind (l : List Char) : ∀ qp lc p out e,
    a2bLoop l qp lc p out = .error e → e = .b64Invalid := by
  induction l with
  | nil =>
    intro qp lc p out e h
    unfold a2bLoop at h
    by_cases hqp : qp = 0
    · rw [if_pos hqp] at h; exact Except.noConfusion h
    · rw [if_neg hqp] at h; exact (Except.error.inj h).symm
  | cons c rest ih =>
    intro qp lc p out e h
    unfold a2bLoop at h
    by_cases hc : c = '='
    · rw [if_pos hc] at h
      by_cases h1 : qp < 2
      · rw [if_pos h1] at h; exact ih _ _ _ _ _ h
      · rw [if_neg h1] at h
        by_cases h2 : 4 ≤ qp + p + 1
        · rw [if_pos h2] at h; exact Except.noConfusion h
        · rw [if_neg h2] at h; exact ih _ _ _ _ _ h
    · rw [if_neg hc] at h
      match hv : b64CharVal c with
      | none => rw [hv] at h; exact ih _ _ _ _ _ h
      | some v =>
        rw [hv] at h
        match qp with
        | 0 => exact ih _ _ _ _ _ h
        | 1 => exact ih _ _ _ _ _ h
        | 2 => exact ih _ _ _ _ _ h
        | n + 3 => exact ih _ _ _ _ _ h

theorem pythonB64Decode_error_kind (s : String) (e : PyErr)
    (h : pythonB64Decode s = .error e) :
    e = .b64Invalid ∨ e = .b64NonAscii := by
  unfold pythonB64Decode at h
  by_cases hascii : s.data.all (fun c => c.toNat < 128)
  · rw [if_pos hascii] at h
    exact Or.inl (a2bLoop_error_kind s.data 0 0 0 [] e h)
  · rw [if_neg hascii] at h
    exact Or.inr (Except.error.inj h).symm

theorem a2bLoop_all_invalid (l : List Char) (hall : ∀ c ∈ l, b64CharVal c = none) :
    ∀ lc p out, a2bLoop l 0 lc p out = .ok out := by
  induction l with
  | nil => intro lc p out; rfl
  | cons c rest ih =>
    intro lc p out
    have hrest : ∀ x ∈ rest, b64CharVal x = none := fun x hx => hall x (by simp [hx])
    unfold a2bLoop
    by_cases hc : c = '='
    · rw [if_pos hc, if_pos (by norm_num)]
      exact ih hrest lc p out
    · rw [if_neg hc, hall c (by simp)]
      exact ih hrest lc p out

theorem pythonB64Decode_all_invalid (s : String)
    (hascii : ∀ c ∈ s.data, c.toNat < 128)
    (hall : ∀ c ∈ s.data, b64CharVal c = none) : pythonB64Decode s = .ok [] := by
  unfold pythonB64Decode
  rw [if_pos (by
    rw [List.all_eq_true]
    exact fun c hc => decide_eq_true (hascii c hc))]
  exact a2bLoop_all_invalid s.data hall 0 0 []

theorem pythonB64Decode_non_ascii (s : String)
    (h : ∃ c ∈ s.data, 128 ≤ c.toNat) :
    pythonB64Decode s = .error .b64NonAscii := by
  unfold pythonB64Decode
  rw [if_neg (by
    obtain ⟨c, hc, hge⟩ := h
    rw [List.all_eq_true]
    intro hallc
    have := of_decide_eq_true (hallc c hc)
    omega)]

theorem hexDigitVal_isSome_ascii (c : Char) (h : (hexDigitVal c).isSome) :
    c.toNat < 128 := by
  unfold hexDigitVal at h
  split_ifs at h with h1 h2 h3
  · omega
  · omega
  · omega
  · simp at h

theorem hexDecodeAux_chars (bs : List Nat) : ∀ l : List Char,
    hexDecodeAux l = some bs → ∀ c ∈ l, (hexDigitVal c).isSome := by
  induction bs with
  | nil =>
    intro l h c hc
    match l, hc with
    | c1 :: c2 :: rest, _ =>
      unfold hexDecodeAux at h
      match he1 : hexDigitVal c1, he2 : hexDigitVal c2, he3 : hexDecodeAux rest with
      | some hv, some lv, some tl2 =>
        rw [he1, he2, he3] at h
        injection h with h
        exact absurd h (by simp)
      | some hv, some lv, none => rw [he1, he2, he3] at h; exact Option.noConfusion h
      | some hv, none, o3 => rw [he1, he2] at h; exact Option.noConfusion h
      | none, o2, o3 => rw [he1] at h; exact Option.noConfusion h
  | cons b tl ih =>
    intro l h c hc
    match l, hc with
    | [x], hc =>
      exact Option.noConfusion h
    | c1 :: c2 :: rest, hc =>
      unfold hexDecodeAux at h
      match he1 : hexDigitVal c1, he2 : hexDigitVal c2, he3 : hexDecodeAux rest with
      | some hv, some lv, some tl2 =>
        rw [he1, he2, he3] at h
        injection h with h
        injection h with hb htl
        subst htl
        rcases List.mem_cons.mp hc with rfl | hc2
        · simp [he1]
        · rcases List.mem_cons.mp hc2 with rfl | hc3
          · simp [he2]
          · exact ih rest he3 c hc3
      | some hv, some lv, none => rw [he1, he2, he3] at h; exact Option.noConfusion h
      | some hv, none, o3 => rw [he1, he2] at h; exact Option.noConfusion h
      | none, o2, o3 => rw [he1] at h; exact Option.noConfusion h

/-- Joint shape of a successful `decrypt_seed`: if the transport text
base64-decodes to a ciphertext whose OAEP decryption is the UTF-8
encoding of a 64-character hex string, `decrypt_seed` returns exactly
that string, case untouched. -/
theorem decrypt_seed_of_plain {k : Nat} (R : RSAScheme k) (s : String) (ct : List Nat)
    (seed : String) (hb64 : pythonB64Decode s = .ok ct)
    (hdec : R.decryptOAEP ct oaepSha256 = .ok (utf8Encode seed))
    (hlen : seed.length = 64) (hhex : ∀ c ∈ seed.data, (hexDigitVal c).isSome) :
    decrypt_seed R s = .ok seed := by
  have hascii : ∀ c ∈ seed.data, c.toNat < 128 :=
    fun c hc => hexDigitVal_isSome_ascii c (hhex c hc)
  unfold decrypt_seed
  rw [hb64, except_bind_ok, hdec, except_bind_ok,
      utf8Decode_encode_ascii seed hascii]
  exact (validate_seed_iff seed).mpr ⟨hlen, hhex⟩

theorem totp_code_at_eq (hm : HmacFn) (seed : String) (bs : List Nat) (t : Nat)
    (hdec : hexDecode seed = some bs) :
    totp_code_at hm seed t = .ok (generate_otp hm bs t) := by
  have hb : isBytes bs := hexDecodeAux_isBytes bs seed.data hdec
  simp only [totp_code_at, hex_to_base32, hdec, except_bind_ok,
             byte_secret_b32encode bs hb]

/-! Concrete fixtures used to evaluate the claim theorems. -/

/-- A stand-in HMAC to instantiate the abstract HMAC-SHA1 parameter on
concrete inputs (the claims constrain only how the digest is consumed). -/
def toyHmac : HmacFn := fun key msg =>
  ((key ++ msg ++ List.replicate 20 7).take 20).map (· % 256)

/-- A lowercase 64-character hex seed. -/
def seedLower64 : String :=
  "a1b2c3d4e5f60718a1b2c3d4e5f60718a1b2c3d4e5f60718a1b2c3d4e5f60718"

/-- The same seed with its letters uppercased. -/
def seedUpper64 : String :=
  "A1B2C3D4E5F60718A1B2C3D4E5F60718A1B2C3D4E5F60718A1B2C3D4E5F60718"

/-! The claims. -/

/-- C1: the proof pipeline of scripts/generate_proof.py cannot avoid
the OAEP payload-size error when both keys are 4096-bit: the PSS
signature over the commit hash is exactly 512 bytes, the OAEP-SHA256
capacity of a 4096-bit key is 4096 / 8 - 2 * 32 - 2 = 446 bytes, so
`encrypt_with_public_key` raises the payload-too-large error on every
commit hash, contradicting the claim that this branch is
unreachable. -/
theorem buildProof_payload_too_large (holder issuer : RSAScheme 4096)
    (commit_hash : String) :
    (sign_message holder commit_hash).length = 512 ∧
    4096 / 8 - 2 * 32 - 2 = 446 ∧
    buildProof holder issuer commit_hash = .error .oaepTooLarge := by
  have hsig : (sign_message holder commit_hash).length = 512 := by
    unfold sign_message
    rw [holder.sign_length]
  refine ⟨hsig, by norm_num, ?_⟩
  simp only [buildProof, encrypt_with_public_key]
  rw [issuer.encrypt_too_large _ (by rw [hsig]; norm_num), except_bind_error]

theorem buildProof_payload_too_large_witness :
    buildProof toyRSA toyRSA "0123456789abcdef0123456789abcdef01234567" =
      .error .oaepTooLarge :=
  (buildProof_payload_too_large toyRSA toyRSA
    "0123456789abcdef0123456789abcdef01234567").2.2

set_option maxRecDepth 40000 in
/-- C2 counterexample: a ciphertext whose plaintext is an
uppercase-lettered 64-character hex string is decrypted by
`decrypt_seed` to that original uppercase string, which differs from
its lowercase form - so the seed that is returned (and persisted by
the caller) is not the lowercase canonical form the claim states. -/
theorem decrypt_seed_uppercase_cx :
    decrypt_seed toyRSA (b64encode (toyCiphertext (utf8Encode seedUpper64))) =
      .ok seedUpper64 ∧
    seedUpper64 ≠ pyLowerStr seedUpper64 := by
  exact ⟨by decide, by decide⟩

/-- C2 amended: `decrypt_seed` is case-insensitive in validation - it
succeeds on a ciphertext whose plaintext is a 64-character hex string
of either case - but it returns the decrypted string verbatim, case
preserved, performing no normalization; this verbatim value is what
the caller persists. -/
theorem decrypt_seed_returns_verbatim {k : Nat} (R : RSAScheme k) (s : String)
    (ct : List Nat) (seed : String) (hb64 : pythonB64Decode s = .ok ct)
    (hdec : R.decryptOAEP ct oaepSha256 = .ok (utf8Encode seed))
    (hlen : seed.length = 64)
    (hhex : ∀ c ∈ seed.data, (hexDigitVal c).isSome) :
    decrypt_seed R s = .ok seed :=
  decrypt_seed_of_plain R s ct seed hb64 hdec hlen hhex

set_option maxRecDepth 40000 in
theorem decrypt_seed_returns_verbatim_witness :
    decrypt_seed toyRSA (b64encode (toyCiphertext (utf8Encode seedUpper64))) =
      .ok seedUpper64 :=
  decrypt_seed_returns_verbatim toyRSA
    (b64encode (toyCiphertext (utf8Encode seedUpper64)))
    (toyCiphertext (utf8Encode seedUpper64)) seedUpper64
    (by decide) (by decide) (by decide) (by decide)

/-- C3 counterexample: the input "!!!!" is not well-formed base64, yet
`decrypt_seed` fails on it with the decryption-stage error, not with
the binascii encoding error the claim requires: the lenient decoder
discards the invalid characters and hands the empty byte string to the
RSA layer. -/
theorem malformed_base64_cx :
    decrypt_seed toyRSA "!!!!" = .error .oaepDecrypt ∧
    PyErr.oaepDecrypt ≠ PyErr.b64Invalid := by
  exact ⟨by decide, by decide⟩

/-- C3 amended: a malformed base64 input fails at the transport
boundary in exactly two ways, both propagating out of `decrypt_seed`
unchanged: a string containing a non-ASCII character raises the plain
ASCII ValueError of `b64decode`'"'"'s str handling before any decoding,
and an ASCII string whose surviving characters form an invalid group
structure raises the distinct `binascii.Error`.  An ASCII input
consisting entirely of non-alphabet characters is instead silently
discarded, decodes to the empty byte string, and surfaces as a
decryption error from the RSA stage - so not every malformed input is
detected at the transport boundary. -/
theorem base64_error_split {k : Nat} (R : RSAScheme k) (s : String) :
    (∀ e, pythonB64Decode s = .error e →
      decrypt_seed R s = .error e ∧ (e = .b64Invalid ∨ e = .b64NonAscii)) ∧
    ((∃ c ∈ s.data, 128 ≤ c.toNat) →
      decrypt_seed R s = .error .b64NonAscii) ∧
    ((∀ c ∈ s.data, c.toNat < 128 ∧ b64CharVal c = none) → 8 ≤ k →
      decrypt_seed R s = .error .oaepDecrypt) := by
  refine ⟨?_, ?_, ?_⟩
  · intro e he
    refine ⟨?_, pythonB64Decode_error_kind s e he⟩
    unfold decrypt_seed
    rw [he, except_bind_error]
  · intro hnon
    unfold decrypt_seed
    rw [pythonB64Decode_non_ascii s hnon, except_bind_error]
  · intro hall hk
    unfold decrypt_seed
    rw [pythonB64Decode_all_invalid s (fun c hc => (hall c hc).1)
          (fun c hc => (hall c hc).2), except_bind_ok,
        R.decrypt_bad_length [] (by simp; omega), except_bind_error]

theorem base64_error_split_witness :
    decrypt_seed toyRSA "abc" = .error .b64Invalid ∧
    decrypt_seed toyRSA "éééé" = .error .b64NonAscii ∧
    decrypt_seed toyRSA "????" = .error .oaepDecrypt := by
  refine ⟨?_, ?_, ?_⟩
  · have h := (base64_error_split toyRSA "abc").1 PyErr.b64Invalid (by decide)
    exact h.1
  · exact (base64_error_split toyRSA "éééé").2.1 (by decide)
  · exact (base64_error_split toyRSA "????").2.2 (by decide) (by decide)

/-- C4: for a fixed 64-character hex seed and a fixed time step,
`generate_totp_code` is deterministic - any two clock readings in the
same 30-second period give the same result - and the code it returns
is produced by hex-decoding the seed to 32 bytes, base32-encoding and
re-decoding them (which collapses to the same 32 key bytes), and
applying the HMAC digest with dynamic truncation; the result is a
string of exactly 6 decimal digits, left-zero-padded. -/
theorem generate_totp_code_spec (hm : HmacFn) (seed : String) (bs : List Nat)
    (now now2 : Nat) (hdec : hexDecode seed = some bs) (hlen : seed.length = 64)
    (hsame : now2 / TOTP_PERIOD = now / TOTP_PERIOD) :
    bs.length = 32 ∧
    generate_totp_code hm seed now = .ok (generate_otp hm bs (now / TOTP_PERIOD)) ∧
    generate_totp_code hm seed now2 = generate_totp_code hm seed now ∧
    (generate_otp hm bs (now / TOTP_PERIOD)).length = 6 ∧
    ∀ c ∈ (generate_otp hm bs (now / TOTP_PERIOD)).data, c.isDigit := by
  have hdl : seed.data.length = 64 := hlen
  have hlen2 := hexDecodeAux_length bs seed.data hdec
  refine ⟨by omega, ?_, ?_, (generate_otp_spec hm bs _).1, (generate_otp_spec hm bs _).2⟩
  · exact totp_code_at_eq hm seed bs _ hdec
  · unfold generate_totp_code
    rw [hsame]

theorem generate_totp_code_spec_witness :
    ((hexDecode seedLower64).getD []).length = 32 ∧
    generate_totp_code toyHmac seedLower64 30 =
      generate_totp_code toyHmac seedLower64 59 := by
  have h := generate_totp_code_spec toyHmac seedLower64
    ((hexDecode seedLower64).getD []) 59 30 (by decide) (by decide) (by decide)
  exact ⟨h.1, h.2.2.1⟩

/-- C5: with the configured window of 1, `verify_totp_code` at clock
reading `now` (time step T at least 1) accepts a candidate exactly
when it equals the code of time step T - 1, T or T + 1; in particular
a candidate that matches none of those three codes - such as one valid
only at T - 2 or T + 2 - is rejected. -/
theorem verify_totp_code_window (hm : HmacFn) (seed code : String) (bs : List Nat)
    (now : Nat) (hdec : hexDecode seed = some bs)
    (hT : 1 ≤ now / TOTP_PERIOD) :
    (verify_totp_code hm seed code now TOTP_VALID_WINDOW = .ok true ↔
      (code = generate_otp hm bs (now / TOTP_PERIOD - 1) ∨
       code = generate_otp hm bs (now / TOTP_PERIOD) ∨
       code = generate_otp hm bs (now / TOTP_PERIOD + 1))) ∧
    (code ≠ generate_otp hm bs (now / TOTP_PERIOD - 1) →
     code ≠ generate_otp hm bs (now / TOTP_PERIOD) →
     code ≠ generate_otp hm bs (now / TOTP_PERIOD + 1) →
     verify_totp_code hm seed code now TOTP_VALID_WINDOW = .ok false) := by
  have hbytes : isBytes bs := hexDecodeAux_isBytes bs seed.data hdec
  have hv : verify_totp_code hm seed code now TOTP_VALID_WINDOW =
      .ok ((code == generate_otp hm bs (now / TOTP_PERIOD - 1)) ||
           ((code == generate_otp hm bs (now / TOTP_PERIOD)) ||
            (code == generate_otp hm bs (now / TOTP_PERIOD + 1)))) := by
    simp only [verify_totp_code, hex_to_base32, hdec, except_bind_ok,
               byte_secret_b32encode bs hbytes, TOTP_VALID_WINDOW]
    rw [if_neg (by norm_num), if_neg (by omega)]
    have hr : List.range (2 * 1 + 1) = [0, 1, 2] := rfl
    rw [hr]
    simp only [List.map_cons, List.map_nil, List.any_cons, List.any_nil,
               Bool.or_false]
    have e0 : now / TOTP_PERIOD - 1 + 0 = now / TOTP_PERIOD - 1 := by omega
    have e1 : now / TOTP_PERIOD - 1 + 1 = now / TOTP_PERIOD := by omega
    have e2 : now / TOTP_PERIOD - 1 + 2 = now / TOTP_PERIOD + 1 := by omega
    rw [e0, e1, e2]
  constructor
  · rw [hv]
    constructor
    · intro h
      have hb := Except.ok.inj h
      simp only [Bool.or_eq_true, beq_iff_eq] at hb
      tauto
    · intro h
      have hb : ((code == generate_otp hm bs (now / TOTP_PERIOD - 1)) ||
           ((code == generate_otp hm bs (now / TOTP_PERIOD)) ||
            (code == generate_otp hm bs (now / TOTP_PERIOD + 1)))) = true := by
        simp only [Bool.or_eq_true, beq_iff_eq]
        tauto
      rw [hb]
  · intro h1 h2 h3
    rw [hv]
    rw [beq_eq_false_iff_ne.mpr h1, beq_eq_false_iff_ne.mpr h2,
        beq_eq_false_iff_ne.mpr h3]
    rfl

theorem verify_totp_code_window_witness :
    verify_totp_code toyHmac seedLower64
      (generate_otp toyHmac ((hexDecode seedLower64).getD []) 3) 60
      TOTP_VALID_WINDOW = .ok true :=
  (verify_totp_code_window toyHmac seedLower64
    (generate_otp toyHmac ((hexDecode seedLower64).getD []) 3)
    ((hexDecode seedLower64).getD []) 60 (by decide) (by decide)).1.mpr
    (Or.inr (Or.inr rfl))

/-- C6: `get_totp_remaining_seconds` returns 30 minus the clock
reading modulo 30, and this value always lies in the inclusive range
1 to 30 (despite the docstring of the source advertising 0-29). -/
theorem get_totp_remaining_seconds_spec (now : Nat) :
    get_totp_remaining_seconds now = 30 - now % 30 ∧
    1 ≤ get_totp_remaining_seconds now ∧ get_totp_remaining_seconds now ≤ 30 := by
  unfold get_totp_remaining_seconds TOTP_PERIOD
  refine ⟨rfl, by omega, by omega⟩

theorem get_totp_remaining_seconds_spec_witness :
    get_totp_remaining_seconds 65 = 30 - 65 % 30 ∧
    1 ≤ get_totp_remaining_seconds 65 ∧ get_totp_remaining_seconds 65 ≤ 30 :=
  get_totp_remaining_seconds_spec 65

/-- C7: round trip - for every 64-character hex string and every RSA
key pair whose modulus holds at least 130 bytes (any generated key,
in particular the configured 4096-bit size), decrypting with
`decrypt_seed` the base64 text of the ciphertext that
`encrypt_with_public_key` produced from the UTF-8 bytes of the seed
succeeds and returns the seed. -/
theorem seed_round_trip {k : Nat} (R : RSAScheme k) (seed : String)
    (ct : List Nat) (hk : 130 ≤ k / 8) (hlen : seed.length = 64)
    (hhex : ∀ c ∈ seed.data, (hexDigitVal c).isSome)
    (henc : encrypt_with_public_key R (utf8Encode seed) = .ok ct) :
    decrypt_seed R (b64encode ct) = .ok seed := by
  have hascii : ∀ c ∈ seed.data, c.toNat < 128 :=
    fun c hc => hexDigitVal_isSome_ascii c (hhex c hc)
  have hbytes := utf8Encode_ascii_isBytes seed hascii
  have hplen : (utf8Encode seed).length = 64 := by
    rw [utf8Encode_ascii_length seed hascii]; exact hlen
  obtain ⟨ct2, henc2, hctlen, hctbytes⟩ :=
    R.encrypt_ok (utf8Encode seed) hbytes (by rw [hplen]; omega)
  have hct : ct2 = ct := Except.ok.inj (henc2.symm.trans henc)
  subst hct
  exact decrypt_seed_of_plain R (b64encode ct2) ct2 seed
    (pythonB64Decode_encode ct2 hctbytes) (R.decrypt_encrypt _ _ henc2) hlen hhex

set_option maxRecDepth 40000 in
theorem seed_round_trip_witness :
    decrypt_seed toyRSA (b64encode (toyCiphertext (utf8Encode seedLower64))) =
      .ok seedLower64 :=
  seed_round_trip toyRSA seedLower64 (toyCiphertext (utf8Encode seedLower64))
    (by decide) (by decide) (by decide) (by decide)

/-- C8: the validation inside `decrypt_seed` accepts exactly the
strings of length 64 whose characters are all hexadecimal digits of
either case (the language of the regular expression
[0-9a-fA-F]{64}), returning the string itself; every other string is
rejected with one of the two seed-format errors. -/
theorem validate_seed_exact (s : String) :
    (validate_seed s = .ok s ↔
      s.length = 64 ∧ ∀ c ∈ s.data, (hexDigitVal c).isSome) ∧
    (¬(s.length = 64 ∧ ∀ c ∈ s.data, (hexDigitVal c).isSome) →
      validate_seed s = .error (.seedLen s.length) ∨
        validate_seed s = .error .seedChars) := by
  refine ⟨validate_seed_iff s, fun hno => ?_⟩
  apply validate_seed_error_shape
  intro hok
  exact hno ((validate_seed_iff s).mp hok)

theorem validate_seed_exact_witness :
    validate_seed seedUpper64 = .ok seedUpper64 :=
  (validate_seed_exact seedUpper64).1.mpr ⟨by decide, by decide⟩

/-- C9: `sign_message` passes to the RSA-PSS primitive exactly the
UTF-8 encoding of the message text, with MGF1-SHA256, maximum salt
length and SHA-256 digest; it never signs the binary decoding of a
hex string - for a non-empty hex message the UTF-8 bytes differ from
the hex-decoded bytes. -/
theorem sign_message_utf8_pss {k : Nat} (R : RSAScheme k) (message : String) :
    sign_message R message = R.signPSS (utf8Encode message) pssMaxSha256 ∧
    pssMaxSha256 = ⟨HashAlg.sha256, SaltSpec.maxLength, HashAlg.sha256⟩ ∧
    ∀ bs, hexDecode message = some bs → message ≠ "" →
      utf8Encode message ≠ bs := by
  refine ⟨rfl, rfl, ?_⟩
  intro bs hdec hne heq
  have hchars := hexDecodeAux_chars bs message.data hdec
  have hascii : ∀ c ∈ message.data, c.toNat < 128 :=
    fun c hc => hexDigitVal_isSome_ascii c (hchars c hc)
  have hlen1 : (utf8Encode message).length = message.length :=
    utf8Encode_ascii_length message hascii
  have hlen2 := hexDecodeAux_length bs message.data hdec
  have hml : message.length = message.data.length := rfl
  have hbl : (utf8Encode message).length = bs.length := by rw [heq]
  have hzero : message.data.length = 0 := by omega
  apply hne
  cases message with
  | mk data =>
    have hd : data = [] := List.length_eq_zero.mp hzero
    rw [hd]

theorem sign_message_utf8_pss_witness :
    utf8Encode "a1b2" ≠ [161, 178] :=
  (sign_message_utf8_pss toyRSA "a1b2").2.2 [161, 178] (by decide) (by decide)

/-- C10: the TOTP derivation is case-insensitive in the seed even
though no normalization is performed: hex_to_base32,
generate_totp_code and verify_totp_code all produce identical results
for a seed and its Python-lowercased form, because bytes.fromhex
accepts both digit cases. -/
theorem totp_seed_case_insensitive (seed : String) :
    hex_to_base32 (pyLowerStr seed) = hex_to_base32 seed ∧
    (∀ (hm : HmacFn) (now : Nat),
      generate_totp_code hm (pyLowerStr seed) now =
        generate_totp_code hm seed now) ∧
    (∀ (hm : HmacFn) (code : String) (now w : Nat),
      verify_totp_code hm (pyLowerStr seed) code now w =
        verify_totp_code hm seed code now w) := by
  have h := hexDecode_pyLowerStr seed
  have h32 : hex_to_base32 (pyLowerStr seed) = hex_to_base32 seed := by
    unfold hex_to_base32
    rw [h]
  refine ⟨h32, ?_, ?_⟩
  · intro hm now
    unfold generate_totp_code totp_code_at
    rw [h32]
  · intro hm code now w
    unfold verify_totp_code
    rw [h32]

theorem totp_seed_case_insensitive_witness :
    hex_to_base32 (pyLowerStr seedUpper64) = hex_to_base32 seedUpper64 :=
  (totp_seed_case_insensitive seedUpper64).1
